import Mathlib

/-!
Formal model of the stockvn repository (Vietnamese stock-market dashboard).

Each Python module that the verified claims touch is embedded as a Lean
namespace:

* `VietnamHolidays`   — src/vietnam_holidays.py
* `Price`             — src/price.py
* `DataArchiver`      — src/data_archiver.py
* `Finance`           — src/finance.py
* `TechnicalAnalysis` — src/technical_analysis.py

Modelling conventions:

* `YYYY-MM-DD` timestamp strings are compared lexicographically by the code
  (Python string `<`, SQLite TEXT order); lexicographic order on that format
  coincides with chronological order, so timestamps are embedded as `Nat`
  (e.g. the number `20240131` for the string `"2024-01-31"`), which has the
  same order.
* pandas numeric cells are embedded as `ℚ`; a cell that may be NaN (a failed
  `pd.to_numeric(errors="coerce")`, or a rolling window that is not yet full)
  is embedded as `Option ℚ`, with `none` playing the role of NaN.
* pandas `DataFrame`s are embedded as lists of rows (records), in sheet
  order; `DataFrame.tail`, `concat`, `drop_duplicates`, `sort_values` become
  the corresponding list operations.

The file is organised with all definitions first and all theorems after.
-/

/-! ### Shared list helpers

pandas `drop_duplicates(subset=ks, keep='first')` keeps, for every value of
the key, the first row carrying it; `keep='last'` keeps the last.  They are
embedded with an accumulator of already-seen keys. -/

/-- `drop_duplicates(keep='first')` along key `f`: keep a row iff its key was
not seen earlier (`seen` accumulates the keys of kept rows). -/
def dedupFirstAux {α κ : Type} [DecidableEq κ] (f : α → κ) :
    List κ → List α → List α
  | _, [] => []
  | seen, a :: as =>
    if f a ∈ seen then dedupFirstAux f seen as
    else a :: dedupFirstAux f (f a :: seen) as

/-- pandas `drop_duplicates(subset, keep='first')`. -/
def dedupFirst {α κ : Type} [DecidableEq κ] (f : α → κ) (l : List α) : List α :=
  dedupFirstAux f [] l

/-- pandas `drop_duplicates(subset, keep='last')`: the last row with each key
survives (at the position of its last occurrence). -/
def dedupLast {α κ : Type} [DecidableEq κ] (f : α → κ) (l : List α) : List α :=
  (dedupFirst f l.reverse).reverse

/-! ## src/vietnam_holidays.py -/

namespace VietnamHolidays

/-- A Gregorian calendar date, as Python's `datetime.date` (year ≥ 1). -/
structure Date where
  year : Nat
  month : Nat
  day : Nat
deriving DecidableEq, Repr

/-- `FIXED_HOLIDAYS`: the four fixed (solar-calendar) Vietnamese holidays. -/
def FIXED_HOLIDAYS : List (Nat × Nat) := [(1, 1), (4, 30), (5, 1), (9, 2)]

/-- `LUNAR_NEW_YEAR`: the lunar New Year holiday table, keyed by year;
only the years 2024–2027 are present. -/
def LUNAR_NEW_YEAR (year : Nat) : Option (List (Nat × Nat)) :=
  if year = 2024 then some [(2, 8), (2, 9), (2, 10), (2, 11), (2, 12), (2, 13), (2, 14)]
  else if year = 2025 then
    some [(1, 27), (1, 28), (1, 29), (1, 30), (1, 31), (2, 1), (2, 2), (2, 3), (2, 4)]
  else if year = 2026 then some [(2, 15), (2, 16), (2, 17), (2, 18), (2, 19), (2, 20), (2, 21)]
  else if year = 2027 then some [(2, 5), (2, 6), (2, 7), (2, 8), (2, 9), (2, 10), (2, 11)]
  else none

/-- `HUNG_VUONG`: the Hung Kings' commemoration day table, keyed by year;
only the years 2024–2027 are present. -/
def HUNG_VUONG (year : Nat) : Option (Nat × Nat) :=
  if year = 2024 then some (4, 18)
  else if year = 2025 then some (4, 7)
  else if year = 2026 then some (4, 26)
  else if year = 2027 then some (4, 16)
  else none

/-- Gregorian leap-year predicate (as Python's calendar). -/
def isLeap (y : Nat) : Bool := y % 4 = 0 && (y % 100 ≠ 0 || y % 400 = 0)

/-- Days before the first day of month `m` in a non-leap year. -/
def cumDays (m : Nat) : Nat :=
  match m with
  | 1 => 0 | 2 => 31 | 3 => 59 | 4 => 90 | 5 => 120 | 6 => 151
  | 7 => 181 | 8 => 212 | 9 => 243 | 10 => 273 | 11 => 304 | _ => 334

/-- Proleptic-Gregorian ordinal of a date, as Python's `date.toordinal`
(0001-01-01 ↦ 1). -/
def toOrdinal (dt : Date) : Nat :=
  365 * (dt.year - 1) + (dt.year - 1) / 4 - (dt.year - 1) / 100 + (dt.year - 1) / 400
    + cumDays dt.month + (if 2 < dt.month && isLeap dt.year then 1 else 0) + dt.day

/-- Python's `date.weekday()`: Monday = 0, …, Sunday = 6. -/
def weekday (dt : Date) : Nat := (toOrdinal dt + 6) % 7

/-- `is_weekend`: Saturday (5) or Sunday (6). -/
def is_weekend (dt : Date) : Bool := 5 ≤ weekday dt

/-- `is_holiday`: fixed holidays, then the lunar New Year table (only when
the year is a key), then the Hung Kings table (only when the year is a key). -/
def is_holiday (dt : Date) : Bool :=
  decide ((dt.month, dt.day) ∈ FIXED_HOLIDAYS)
  || (match LUNAR_NEW_YEAR dt.year with
      | some days_ => decide ((dt.month, dt.day) ∈ days_)
      | none => false)
  || (match HUNG_VUONG dt.year with
      | some p => decide ((dt.month, dt.day) = p)
      | none => false)

/-- `is_trading_day`: not a weekend and not a holiday. -/
def is_trading_day (dt : Date) : Bool := !(is_weekend dt || is_holiday dt)

end VietnamHolidays

/-! ## src/price.py -/

namespace Price

/-- Identifier of a vnstock market-data source. -/
inductive Source
  | SSI
  | VCI
  | TCBS
deriving DecidableEq, Repr

/-- Outcome of one `vs.stock(symbol, source).quote.history(...)` call:
`ok rows` when the call returns a dataframe with the given rows, `err` when
it raises an exception (both `403`/`Forbidden` errors and any other error
make the loop move to the next source). -/
inductive FetchResult (Row : Type)
  | ok (rows : List Row)
  | err
deriving DecidableEq

/-- `sources_to_try = ['SSI', 'VCI', 'TCBS']`. -/
def sources_to_try : List Source := [.SSI, .VCI, .TCBS]

/-- The per-ticker fallback loop of src/price.py: try each source in order;
on a non-empty successful result break out; on an exception or an empty
result continue with the next source.  The first component is the dataframe
the loop ends with (`none` when the ticker is recorded as having no data,
i.e. `df is None or df.empty` after the loop); the second component lists
the sources actually contacted, in order. -/
def fallbackFetch {Row : Type} (fetch : Source → FetchResult Row) :
    List Source → Option (List Row) × List Source
  | [] => (none, [])
  | s :: rest =>
    match fetch s with
    | .ok rows =>
      if rows.isEmpty then
        let r := fallbackFetch fetch rest
        (r.1, s :: r.2)
      else (some rows, [s])
    | .err =>
      let r := fallbackFetch fetch rest
      (r.1, s :: r.2)

/-- The whole fallback block for one ticker. -/
def scrapeTicker {Row : Type} (fetch : Source → FetchResult Row) :
    Option (List Row) × List Source :=
  fallbackFetch fetch sources_to_try

/-- A source "fails" for the loop when it raises or returns an empty frame. -/
def sourceFailed {Row : Type} (fetch : Source → FetchResult Row) (s : Source) : Prop :=
  fetch s = .err ∨ fetch s = .ok []

/-- A concrete fetch outcome: SSI raises, VCI returns one row, TCBS unused. -/
def fetchW : Source → FetchResult Nat
  | .SSI => .err
  | .VCI => .ok [7]
  | .TCBS => .ok []

/-- A row of the `price` sheet: key columns `ticker` and `date`, with the
OHLCV payload.  (`final_df.astype(str)` turns values into strings before the
merge; the string encoding is injective on the key columns, so the merge key
is modelled directly on the values.) -/
structure PriceRow where
  ticker : String
  date : Nat
  popen : ℚ
  phigh : ℚ
  plow : ℚ
  pclose : ℚ
  pvolume : ℚ
deriving DecidableEq, Repr

/-- The composite merge key of the `price` sheet: `['ticker', 'date']`. -/
def priceKey (r : PriceRow) : String × Nat := (r.ticker, r.date)

/-- `sort_values(['ticker', 'date'])` as a boolean lexicographic order. -/
def priceLeB (a b : PriceRow) : Bool :=
  if a.ticker ≠ b.ticker then a.ticker < b.ticker else a.date ≤ b.date

/-- `--mode update` write path of src/price.py: read the existing sheet; when
it is non-empty, concatenate existing rows then the newly scraped rows, drop
duplicate `(ticker, date)` keys keeping the last (i.e. the new) occurrence,
and sort by ticker and date; when the sheet was empty the scraped rows are
written as they are (already sorted upstream). -/
def updateModeMerge (existing final_df : List PriceRow) : List PriceRow :=
  if existing.isEmpty then final_df
  else
    List.insertionSort (fun a b => priceLeB a b = true)
      (dedupLast priceKey (existing ++ final_df))

/-- A stored price row whose `(ticker, date)` key is hit by the new scrape. -/
def prOldRow : PriceRow := ⟨"AAA", 20240102, 1, 1, 1, 1, 1⟩

/-- A freshly scraped row with the same `(ticker, date)` key as `prOldRow`. -/
def prNewRow : PriceRow := ⟨"AAA", 20240102, 2, 2, 2, 2, 2⟩

/-- A stored price row whose key the new scrape does not touch. -/
def prKeepRow : PriceRow := ⟨"BBB", 20240101, 3, 3, 3, 3, 3⟩

end Price

/-! ## src/data_archiver.py -/

namespace DataArchiver

/-- One row of the `price_history` data (one ticker, one day).  The
`timestamp` column is the `YYYY-MM-DD` day (normalised by
`pd.to_datetime(...).dt.strftime("%Y-%m-%d")`), embedded as `Nat` in the
same order.  All required columns are taken as present (the code fills
missing ones and computes `value = close * volume` when absent). -/
structure Row where
  timestamp : Nat
  ticker : String
  ropen : ℚ
  rhigh : ℚ
  rlow : ℚ
  rclose : ℚ
  rvolume : ℚ
  rvalue : ℚ
deriving DecidableEq, Repr

/-- The two stores of the hybrid archival layer: the SQLite `price_history`
table (in insertion order) and the Sheets `price_history` worksheet. -/
structure HybridState where
  sqlite : List Row
  sheets : List Row
deriving DecidableEq, Repr

/-- `archive_old_data` for a given cutoff date (`today - retention_days`,
formatted `YYYY-MM-DD`):

* an empty worksheet returns immediately;
* `old_data` (timestamp `<` cutoff) empty returns immediately;
* otherwise `old_data` is appended to the SQLite table
  (`to_sql(..., if_exists='append')`) and, only when `recent_data`
  (timestamp `>=` cutoff) is non-empty, the worksheet is cleared and
  rewritten with exactly `recent_data`; when `recent_data` is empty the
  worksheet is left as it was. -/
def archive_old_data (cutoff : Nat) (st : HybridState) : HybridState :=
  if st.sheets.isEmpty then st
  else
    let old_data := st.sheets.filter (fun r => r.timestamp < cutoff)
    let recent_data := st.sheets.filter (fun r => cutoff ≤ r.timestamp)
    if old_data.isEmpty then st
    else
      { sqlite := st.sqlite ++ old_data
        sheets := if recent_data.isEmpty then st.sheets else recent_data }

/-- `ORDER BY timestamp` / `sort_values('timestamp')`. -/
def sortByTimestamp (l : List Row) : List Row :=
  List.insertionSort (fun a b => a.timestamp ≤ b.timestamp) l

/-- The SQLite half of `get_historical_data`:
`WHERE ticker = ? AND timestamp >= start AND timestamp <= min(end, cutoff)
ORDER BY timestamp`. -/
def sqliteQuery (cutoff : Nat) (st : HybridState) (ticker : String)
    (start_date end_date : Nat) : List Row :=
  sortByTimestamp (st.sqlite.filter
    (fun r => r.ticker = ticker ∧ start_date ≤ r.timestamp
      ∧ r.timestamp ≤ min end_date cutoff))

/-- The Sheets half of `get_historical_data`: rows of the worksheet with the
requested ticker and `max(start, cutoff) <= timestamp <= end`. -/
def sheetsQuery (cutoff : Nat) (st : HybridState) (ticker : String)
    (start_date end_date : Nat) : List Row :=
  st.sheets.filter
    (fun r => r.ticker = ticker ∧ max start_date cutoff ≤ r.timestamp
      ∧ r.timestamp ≤ end_date)

/-- `get_historical_data`: query both stores, and when at least one returned
rows, concatenate, `sort_values('timestamp')` and
`drop_duplicates(subset=['timestamp', 'ticker'])` (keep `'first'`); when
both are empty return an empty dataframe. -/
def get_historical_data (cutoff : Nat) (st : HybridState) (ticker : String)
    (start_date end_date : Nat) : List Row :=
  let sqlite_df := sqliteQuery cutoff st ticker start_date end_date
  let sheets_df := sheetsQuery cutoff st ticker start_date end_date
  if sqlite_df.isEmpty && sheets_df.isEmpty then []
  else
    dedupFirst (fun r => (r.timestamp, r.ticker))
      (sortByTimestamp (sqlite_df ++ sheets_df))

/-- A row strictly before the example cutoff 2025-01-01. -/
def rowOld : Row := ⟨20200101, "AAA", 0, 0, 0, 0, 0, 0⟩

/-- A row on/after the example cutoff 2025-01-01. -/
def rowNew : Row := ⟨20260101, "AAA", 0, 0, 0, 0, 0, 0⟩

/-- A store whose worksheet holds only pre-cutoff rows. -/
def stOldOnly : HybridState := ⟨[], [rowOld]⟩

/-- A store with one archived (SQLite) row and one recent (Sheets) row. -/
def stW : HybridState := ⟨[rowOld], [rowNew]⟩

instance : IsTotal Row (fun a b => a.timestamp ≤ b.timestamp) :=
  ⟨fun a b => Nat.le_total a.timestamp b.timestamp⟩

instance : IsTrans Row (fun a b => a.timestamp ≤ b.timestamp) :=
  ⟨fun _ _ _ => Nat.le_trans⟩

end DataArchiver

/-! ## src/finance.py -/

namespace Finance

/-- One row of a financial-statement sheet (`income`, `balance`, `cashflow`):
the key columns and an abstract payload cell standing for the remaining
statement columns.  `year` and `quarter` are numbers in the data; the code
casts the key columns with `astype(str)` before comparing, which is
injective, so the keys are modelled on the values directly. -/
structure FinRow where
  ticker : String
  year : Nat
  quarter : Nat
  payload : ℚ
deriving DecidableEq, Repr

/-- The composite merge key: `['ticker', 'year', 'quarter']` when the new
dataframe has a `quarter` column (`hq = true`), else `['ticker', 'year']`.
The no-quarter case is embedded by sending `quarter` to a constant. -/
def finKey (hq : Bool) (r : FinRow) : String × Nat × Nat :=
  (r.ticker, r.year, if hq then r.quarter else 0)

/-- `sort_values(sort_cols)` as a boolean lexicographic order on the key. -/
def finLeB (hq : Bool) (a b : FinRow) : Bool :=
  if a.ticker ≠ b.ticker then a.ticker < b.ticker
  else if a.year ≠ b.year then a.year < b.year
  else if hq then a.quarter ≤ b.quarter
  else true

/-- The merge of `write_to_sheet`: when the sheet already has rows and there
are new rows, concatenate the new rows *before* the old rows, drop duplicate
composite keys keeping the first (i.e. the new) occurrence, and sort by the
key columns; when either side is empty the other is written unchanged (up
to the same sort). -/
def write_to_sheet_merge (hq : Bool) (new_df old_df : List FinRow) : List FinRow :=
  let combined_df :=
    if old_df.isEmpty then new_df
    else if new_df.isEmpty then old_df
    else dedupFirst (finKey hq) (new_df ++ old_df)
  List.insertionSort (fun a b => finLeB hq a b = true) combined_df

/-- A stored statement row whose key is hit by the incoming data. -/
def finOldRow : FinRow := ⟨"AAA", 2023, 1, 10⟩

/-- An incoming statement row with the same key as `finOldRow`. -/
def finNewRow : FinRow := ⟨"AAA", 2023, 1, 99⟩

/-- A stored statement row whose key is not among the incoming rows. -/
def finKeepRow : FinRow := ⟨"BBB", 2022, 4, 5⟩

end Finance

/-! ## src/technical_analysis.py -/

namespace TechnicalAnalysis

/-- One input row of a `TechnicalAnalyzer` dataframe, after the
`pd.to_numeric(..., errors='coerce')` pass of `__init__`: each OHLCV cell is
either a number or NaN (`none`). -/
structure RawRow where
  ropen : Option ℚ
  rhigh : Option ℚ
  rlow : Option ℚ
  rclose : Option ℚ
  rvolume : Option ℚ
deriving DecidableEq, Repr

/-- `self.df` of a `TechnicalAnalyzer` (after `__init__` ran): the truncated,
coerced, close-dropna'd rows. -/
structure TechnicalAnalyzer where
  rows : List RawRow
deriving DecidableEq, Repr

/-- The dataflow of `__init__` (days defaults to 400): truncate to the last
`days` rows when longer, coerce (already reflected in the cell type), then
`dropna(subset=['close'])`. -/
def analyzerInit (df : List RawRow) (days : Nat) : TechnicalAnalyzer :=
  let truncated := if days < df.length then df.drop (df.length - days) else df
  ⟨truncated.filter (fun r => r.rclose.isSome)⟩

/-- The `close` column values (every row of `self.df` has a valid close). -/
def closes (a : TechnicalAnalyzer) : List ℚ :=
  a.rows.filterMap (fun r => r.rclose)

/-- The `volume` column (may still contain NaN). -/
def volumes (a : TechnicalAnalyzer) : List (Option ℚ) :=
  a.rows.map (fun r => r.rvolume)

/-- `Series.rolling(window=w).mean()`: NaN until the window is full, then
the arithmetic mean of the trailing `w` entries. -/
def rollingMean (w : Nat) (xs : List ℚ) : List (Option ℚ) :=
  (List.range xs.length).map (fun i =>
    if i + 1 < w then none
    else some (((xs.drop (i + 1 - w)).take w).sum / w))

/-- `Series.rolling(window=w).mean()` over a column that may contain NaN:
a window containing a NaN yields NaN. -/
def rollingMeanOpt (w : Nat) (xs : List (Option ℚ)) : List (Option ℚ) :=
  (List.range xs.length).map (fun i =>
    if i + 1 < w then none
    else
      let window := (xs.drop (i + 1 - w)).take w
      if window.all (fun c => c.isSome) then
        some ((window.filterMap id).sum / w)
      else none)

/-- Tail of `Series.ewm(..., adjust=False).mean()` after the seed `y`:
`y_{i+1} = (1 - α) * y_i + α * x_{i+1}`. -/
def emaAux (al : ℚ) (y : ℚ) : List ℚ → List ℚ
  | [] => []
  | x :: xs =>
    let y' := (1 - al) * y + al * x
    y' :: emaAux al y' xs

/-- The smoothing factor of `ewm(span=s, adjust=False)`: `α = 2 / (s + 1)`. -/
def emaAlpha (span : Nat) : ℚ := 2 / (span + 1)

/-- `Series.ewm(span=s, adjust=False).mean()`: seeded with the first value. -/
def ewmMean (span : Nat) (xs : List ℚ) : List ℚ :=
  match xs with
  | [] => []
  | x :: rest => x :: emaAux (emaAlpha span) x rest

/-- `delta = self.df['close'].diff()` without its leading NaN:
`deltas xs = [x₁ - x₀, x₂ - x₁, …]`. -/
def deltas (xs : List ℚ) : List ℚ :=
  List.zipWith (fun a b => a - b) xs.tail xs

/-- The gain clamp `delta.where(delta > 0, 0)` applied to one delta. -/
def posPart (d : ℚ) : ℚ := if 0 < d then d else 0

/-- The loss clamp `-(delta.where(delta < 0, 0))` applied to one delta. -/
def negPart (d : ℚ) : ℚ := if d < 0 then -d else 0

/-- The series `delta.where(delta > 0, 0)`.  The leading NaN of `diff()`
satisfies `NaN > 0 = False`, so `where` replaces it with `0`: the series
starts with a literal `0`. -/
def gainList (xs : List ℚ) : List ℚ := 0 :: (deltas xs).map posPart

/-- The series `-(delta.where(delta < 0, 0))`; the leading NaN again becomes
`0`. -/
def lossList (xs : List ℚ) : List ℚ := 0 :: (deltas xs).map negPart

/-- The `RSI` column: `100 - 100 / (1 + rs)` with
`rs = gain.rolling(14).mean() / loss.rolling(14).mean()`.  Float corners of
the division: when the loss average is `0` and the gain average is positive,
`rs = +inf` and the RSI evaluates to `100`; when both averages are `0`,
`rs = NaN` and the entry is NaN (`none`). -/
def rsiCol (xs : List ℚ) : List (Option ℚ) :=
  List.zipWith
    (fun g? l? =>
      match g?, l? with
      | some g, some l =>
        if l = 0 then (if 0 < g then some 100 else none)
        else some (100 - 100 / (1 + g / l))
      | _, _ => none)
    (rollingMean 14 (gainList xs)) (rollingMean 14 (lossList xs))

/-- The `Volume_Ratio` column: `volume / volume.rolling(20).mean()`.  (The
float corner `x / 0 = ±inf` is collapsed to NaN here; no verified claim
depends on it.) -/
def volumeRatioCol (vols : List (Option ℚ)) : List (Option ℚ) :=
  List.zipWith
    (fun v? m? =>
      match v?, m? with
      | some v, some m => if m = 0 then none else some (v / m)
      | _, _ => none)
    vols (rollingMeanOpt 20 vols)

/-- `_calculate_all_indicators` runs (and the indicator columns exist) iff
`len(self.df) >= 20`. -/
def hasIndicatorCols (a : TechnicalAnalyzer) : Bool := 20 ≤ a.rows.length

/-- The `MA{w}` column (`w ∈ {20, 50, 200}` are the ones computed). -/
def MAcol (w : Nat) (a : TechnicalAnalyzer) : List (Option ℚ) :=
  rollingMean w (closes a)

/-- The `MACD` column: `EMA12 - EMA26` of close, pointwise. -/
def MACDcol (a : TechnicalAnalyzer) : List ℚ :=
  List.zipWith (fun x y => x - y) (ewmMean 12 (closes a)) (ewmMean 26 (closes a))

/-- The `MACD_Signal` column: 9-span EMA of the MACD line. -/
def MACDsignalCol (a : TechnicalAnalyzer) : List ℚ :=
  ewmMean 9 (MACDcol a)

/-- The `MACD_Histogram` column: `MACD - MACD_Signal`, pointwise. -/
def MACDhistCol (a : TechnicalAnalyzer) : List ℚ :=
  List.zipWith (fun x y => x - y) (MACDcol a) (MACDsignalCol a)

/-- `get_current_price`: `float(self.df['close'].iloc[-1])` when the frame is
non-empty, else `0`. -/
def get_current_price (a : TechnicalAnalyzer) : ℚ :=
  ((closes a).getLast?).getD 0

/-- `get_ma(period)`: the last value of `MA{period}` when that column exists
(`period` one of 20/50/200 and the indicator block ran) and is not all-NaN;
otherwise `0`.  (When the column is not all-NaN its last entry is a number,
so `float(iloc[-1])` is that number.) -/
def get_ma (a : TechnicalAnalyzer) (period : Nat) : ℚ :=
  if hasIndicatorCols a ∧ (period = 20 ∨ period = 50 ∨ period = 200) then
    let col := MAcol period a
    if col.all (fun c => c.isNone) then 0
    else ((col.getLast?).getD none).getD 0
  else 0

/-- `get_rsi`: `50` when the `RSI` column is missing or all-NaN, else
`float(self.df['RSI'].iloc[-1])` — a NaN result is modelled as `none`,
a number `v` as `some v`. -/
def get_rsi (a : TechnicalAnalyzer) : Option ℚ :=
  if hasIndicatorCols a then
    let col := rsiCol (closes a)
    if col.all (fun c => c.isNone) then some 50
    else (col.getLast?).getD none
  else some 50

/-- `get_volume_ratio`: `1.0` when the `Volume_Ratio` column is missing or
all-NaN, else its last entry (NaN as `none`). -/
def volRatioVal (a : TechnicalAnalyzer) : Option ℚ :=
  if hasIndicatorCols a then
    let col := volumeRatioCol (volumes a)
    if col.all (fun c => c.isNone) then some 1
    else (col.getLast?).getD none
  else some 1

/-- `detect_volume_spike(threshold)`: `get_volume_ratio() > threshold`
(`NaN > threshold` is `False`, matching the `none` case). -/
def detect_volume_spike (a : TechnicalAnalyzer) (threshold : ℚ) : Bool :=
  match volRatioVal a with
  | some v => threshold < v
  | none => false

/-- A float comparison lifted to NaN-able cells: any comparison involving
NaN is `False`. -/
def optCmp (cmp : ℚ → ℚ → Bool) : Option ℚ → Option ℚ → Bool
  | some a, some b => cmp a b
  | _, _ => false

/-- The candidate-collection loops of `find_support_resistance`:
`for i in range(2, len(vals) - 2)`, collect `vals[i]` whenever
`cmp vals[i] vals[i±1]`, `cmp vals[i] vals[i±2]` and `cmp vals[i] price` all
hold (with `cmp` equal to `<` for the support loop over lows and `>` for the
resistance loop over highs).  Implemented by scanning 5-cell windows, whose
centre is `vals[i]`. -/
def window5Extrema (cmp : ℚ → ℚ → Bool) (price : ℚ) : List (Option ℚ) → List ℚ
  | x :: rest =>
    (match rest with
     | b :: c :: d :: e :: _ =>
       match c with
       | some v =>
         if optCmp cmp c x && optCmp cmp c b && optCmp cmp c d && optCmp cmp c e
            && cmp v price then [v]
         else []
       | none => []
     | _ => []) ++ window5Extrema cmp price rest
  | [] => []

/-- `max` of a non-empty float list (the Python builtin). -/
def listMax : List ℚ → Option ℚ
  | [] => none
  | x :: xs =>
    match listMax xs with
    | none => some x
    | some m => some (max x m)

/-- `min` of a non-empty float list (the Python builtin). -/
def listMin : List ℚ → Option ℚ
  | [] => none
  | x :: xs =>
    match listMin xs with
    | none => some x
    | some m => some (min x m)

/-- Python `round(x, 1)` on exact values: round `10 * x` to the nearest
integer, ties to even, divide by 10.  (Binary-float representation noise
aside, this is the documented behaviour of `round`.) -/
def roundHalfEven (q : ℚ) : ℤ :=
  let f := ⌊q⌋
  let r := q - f
  if r < 1 / 2 then f
  else if 1 / 2 < r then f + 1
  else if f % 2 = 0 then f else f + 1

/-- `round(x, 1)`. -/
def round1 (q : ℚ) : ℚ := (roundHalfEven (10 * q) : ℚ) / 10

/-- `find_support_resistance`:

* fewer than 20 rows: `(0, 0)`;
* otherwise, over the last 60 rows: `supports` are the 5-bar local minima of
  `low` strictly below the current price, `resistances` the 5-bar local
  maxima of `high` strictly above it;
* `support = max(supports)`, falling back to `get_ma(50)` when there are no
  candidates, and replaced by `price * 0.95` whenever the chosen value is 0;
* `resistance = min(resistances)`, falling back to the NaN-skipping maximum
  of the last 60 highs (NaN when every high is NaN), and replaced by
  `price * 1.1` whenever the chosen value is `<= price` (a NaN value stays
  NaN, since `NaN <= price` is `False`);
* both rounded to one decimal (`none` = NaN for the resistance). -/
def find_support_resistance (a : TechnicalAnalyzer) : ℚ × Option ℚ :=
  if a.rows.length < 20 then (0, some 0)
  else
    let recent := a.rows.drop (a.rows.length - 60)
    let price := get_current_price a
    let supports := window5Extrema (fun x y => decide (x < y)) price
      (recent.map (fun r => r.rlow))
    let resistances := window5Extrema (fun x y => decide (y < x)) price
      (recent.map (fun r => r.rhigh))
    let support0 :=
      match listMax supports with
      | some m => m
      | none => get_ma a 50
    let support := if support0 = 0 then price * (95 / 100) else support0
    let resistance0 : Option ℚ :=
      match listMin resistances with
      | some m => some m
      | none => listMax (recent.filterMap (fun r => r.rhigh))
    let resistance : Option ℚ :=
      match resistance0 with
      | some v => some (if v ≤ price then price * (11 / 10) else v)
      | none => none
    (round1 support, resistance.map round1)

/-- Written from the claim: position `i` of `vals` is a strict 5-bar local
extremum for the comparison `cmp` (`<`: local minimum, `>`: local maximum)
with value `v`. -/
def specIsExtreme (cmp : ℚ → ℚ → Bool) (vals : List ℚ) (i : Nat) (v : ℚ) : Prop :=
  2 ≤ i ∧ i + 2 < vals.length ∧ vals.getD i 0 = v
  ∧ cmp v (vals.getD (i - 2) 0) ∧ cmp v (vals.getD (i - 1) 0)
  ∧ cmp v (vals.getD (i + 1) 0) ∧ cmp v (vals.getD (i + 2) 0)

/-- Written from the claim (the standard Wilder RSI): seed the average gain
and loss with the simple means of the first 14 deltas, then smooth with
`avg' = (13 * avg + current) / 14`, and finish with
`RSI = 100 - 100 / (1 + RS)`, `RS` the ratio of the final averages (`none`
when there are fewer than 14 deltas or the final average loss is 0). -/
def wilderSmooth : ℚ × ℚ → List ℚ → ℚ × ℚ
  | acc, [] => acc
  | (ag, al), d :: ds =>
    wilderSmooth ((13 * ag + posPart d) / 14, (13 * al + negPart d) / 14) ds

/-- The last value of the standard Wilder 14-period RSI of `xs`. -/
def specWilderRsiLast (xs : List ℚ) : Option ℚ :=
  let ds := deltas xs
  if ds.length < 14 then none
  else
    let ag0 := ((ds.take 14).map posPart).sum / 14
    let al0 := ((ds.take 14).map negPart).sum / 14
    let p := wilderSmooth (ag0, al0) (ds.drop 14)
    if p.2 = 0 then none else some (100 - 100 / (1 + p.1 / p.2))

/-! ### Frame-aliasing model of `__init__` (C10)

`__init__` receives a reference to the caller's dataframe and must never
mutate it.  pandas frames are mutable heap objects, so the copy discipline
of `__init__` is modelled with an explicit heap of frames: `df.copy()` and
`dropna(...)` allocate fresh frames, in-place column assignment writes to
the frame its target name points to. -/

/-- A dataframe cell before numeric coercion: a number, a non-numeric value
(coerced to NaN by `pd.to_numeric(..., errors='coerce')`), or NaN itself. -/
inductive CellV
  | num (q : ℚ)
  | text (s : String)
  | nan
deriving DecidableEq, Repr

/-- A raw dataframe row as the caller supplies it. -/
structure CRow where
  copen : CellV
  chigh : CellV
  clow : CellV
  cclose : CellV
  cvolume : CellV
deriving DecidableEq, Repr

/-- `pd.to_numeric(cell, errors='coerce')`. -/
def to_numeric (c : CellV) : CellV :=
  match c with
  | .num q => .num q
  | _ => .nan

/-- The coercion loop of `__init__` applied to one row (all five columns). -/
def coerceRow (r : CRow) : CRow :=
  ⟨to_numeric r.copen, to_numeric r.chigh, to_numeric r.clow,
    to_numeric r.cclose, to_numeric r.cvolume⟩

/-- The heap of live dataframes; a frame id is an index into `frames`. -/
structure Heap where
  frames : List (List CRow)
deriving DecidableEq, Repr

/-- Dereference a frame id. -/
def readF (h : Heap) (i : Nat) : List CRow := h.frames.getD i []

/-- Allocate a fresh frame (`copy`, `dropna`, …) and return its id. -/
def alloc (h : Heap) (d : List CRow) : Heap × Nat :=
  (⟨h.frames ++ [d]⟩, h.frames.length)

/-- Mutate the frame with id `i` in place (column assignment). -/
def writeF (h : Heap) (i : Nat) (d : List CRow) : Heap :=
  ⟨h.frames.set i d⟩

/-- `TechnicalAnalyzer.__init__(df, days)` as heap operations, one step per
source line; returns the final heap and the ids bound to `self.original_df`
and `self.df`. -/
def analyzerInitH (h : Heap) (dfId : Nat) (days : Nat) : Heap × Nat × Nat :=
  let df := readF h dfId
  -- self.original_df = df.copy()
  let p1 := alloc h df
  -- self.df = df.tail(days).copy() if len(df) > days else df.copy()
  let p2 := alloc p1.1 (if days < df.length then df.drop (df.length - days) else df)
  -- for col in [...]: self.df[col] = pd.to_numeric(self.df[col], errors='coerce')
  let h3 := writeF p2.1 p2.2 ((readF p2.1 p2.2).map coerceRow)
  -- self.df = self.df.dropna(subset=['close'])  (dropna returns a new frame)
  let p4 := alloc h3 ((readF h3 p2.2).filter (fun r => r.cclose ≠ CellV.nan))
  -- self._calculate_all_indicators(): indicator-column writes target self.df
  -- (they add columns; the data columns CRow models are unchanged)
  let h5 := writeF p4.1 p4.2 (readF p4.1 p4.2)
  (h5, p1.2, p4.2)

/-- A one-frame heap whose frame has a non-numeric close cell (so that the
coercion write genuinely changes the working copy). -/
def hW : Heap :=
  ⟨[[⟨CellV.num 1, CellV.num 2, CellV.num 1, CellV.text "x", CellV.num 5⟩,
     ⟨CellV.num 1, CellV.num 2, CellV.num 1, CellV.num 3, CellV.num 5⟩]]⟩

/-- A one-row frame (far fewer than 20 valid closes). -/
def dfSmall : List RawRow := [⟨some 1, some 1, some 1, some 5, some 1⟩]

/-- A fully valid row with the given close. -/
def mkR (c : ℚ) : RawRow := ⟨some 1, some 1, some 1, some c, some 1⟩

/-- 21 valid rows whose closes alternate 10, 11, 10, …, 10. -/
def dfAlt : List RawRow :=
  [mkR 10, mkR 11, mkR 10, mkR 11, mkR 10, mkR 11, mkR 10, mkR 11, mkR 10,
   mkR 11, mkR 10, mkR 11, mkR 10, mkR 11, mkR 10, mkR 11, mkR 10, mkR 11,
   mkR 10, mkR 11, mkR 10]

/-- A valid row with close 10, high 20 and the given low. -/
def mkSR (lo : ℚ) : RawRow := ⟨some 1, some 20, some lo, some 10, some 1⟩

/-- 20 valid rows, low 5 everywhere except a single dip to 0 (a strict 5-bar
local minimum of value 0), close 10 and high 20 throughout. -/
def dfSR : List RawRow :=
  [mkSR 5, mkSR 5, mkSR 5, mkSR 5, mkSR 5, mkSR 5, mkSR 5, mkSR 5, mkSR 5,
   mkSR 5, mkSR 0, mkSR 5, mkSR 5, mkSR 5, mkSR 5, mkSR 5, mkSR 5, mkSR 5,
   mkSR 5, mkSR 5]

end TechnicalAnalysis

/-! # Theorems -/

/-! ### Properties of the `drop_duplicates` helpers -/

section DedupLemmas

variable {α κ : Type} [DecidableEq κ] (f : α → κ)

theorem dedupFirstAux_sublist (seen : List κ) (l : List α) :
    List.Sublist (dedupFirstAux f seen l) l := by
  induction l generalizing seen with
  | nil => simp [dedupFirstAux]
  | cons a as ih =>
    rw [dedupFirstAux]
    split
    · exact (ih seen).cons a
    · exact (ih _).cons₂ a

theorem mem_of_mem_dedupFirstAux {seen : List κ} {l : List α} {t : α}
    (h : t ∈ dedupFirstAux f seen l) : t ∈ l :=
  (dedupFirstAux_sublist f seen l).subset h

theorem dedupFirstAux_key_not_seen {seen : List κ} {l : List α} {t : α}
    (h : t ∈ dedupFirstAux f seen l) : f t ∉ seen := by
  induction l generalizing seen with
  | nil => simp [dedupFirstAux] at h
  | cons a as ih =>
    rw [dedupFirstAux] at h
    by_cases ha : f a ∈ seen
    · rw [if_pos ha] at h
      exact ih h
    · rw [if_neg ha] at h
      rcases List.mem_cons.1 h with rfl | h2
      · exact ha
      · intro hmem
        exact ih h2 (List.mem_cons_of_mem _ hmem)

theorem dedupFirstAux_key_cover {l : List α} {r : α} (hr : r ∈ l) :
    ∀ seen : List κ, f r ∉ seen → ∃ t ∈ dedupFirstAux f seen l, f t = f r := by
  induction l with
  | nil => cases hr
  | cons a as ih =>
    intro seen hseen
    rw [dedupFirstAux]
    by_cases ha : f a ∈ seen
    · rw [if_pos ha]
      rcases List.mem_cons.1 hr with rfl | hr2
      · exact absurd ha hseen
      · exact ih hr2 seen hseen
    · rw [if_neg ha]
      by_cases hfa : f r = f a
      · exact ⟨a, List.mem_cons_self _ _, hfa.symm⟩
      · rcases List.mem_cons.1 hr with heq | hr2
        · exact ⟨a, List.mem_cons_self _ _, by rw [heq]⟩
        · obtain ⟨t, ht, hft⟩ := ih hr2 (f a :: seen) (by simp [hseen, hfa])
          exact ⟨t, List.mem_cons_of_mem _ ht, hft⟩

theorem dedupFirstAux_keys_nodup (seen : List κ) (l : List α) :
    ((dedupFirstAux f seen l).map f).Nodup := by
  induction l generalizing seen with
  | nil => simp [dedupFirstAux]
  | cons a as ih =>
    rw [dedupFirstAux]
    split
    · exact ih seen
    · simp only [List.map_cons, List.nodup_cons]
      refine ⟨?_, ih _⟩
      intro hmem
      obtain ⟨t, ht, hft⟩ := List.mem_map.1 hmem
      exact dedupFirstAux_key_not_seen f ht (by simp [hft])

theorem dedupFirstAux_keep_unique {l : List α} {r : α} :
    r ∈ l → (∀ s ∈ l, f s = f r → s = r) →
    ∀ seen : List κ, f r ∉ seen → r ∈ dedupFirstAux f seen l := by
  induction l with
  | nil => intro hr; cases hr
  | cons a as ih =>
    intro hr huniq seen hseen
    rw [dedupFirstAux]
    by_cases har : a = r
    · subst har
      rw [if_neg hseen]
      exact List.mem_cons_self _ _
    · have hr2 : r ∈ as := by
        rcases List.mem_cons.1 hr with h | h
        · exact absurd h.symm har
        · exact h
      have huniq' : ∀ s ∈ as, f s = f r → s = r :=
        fun s hs => huniq s (List.mem_cons_of_mem _ hs)
      have hne : f a ≠ f r := fun h => har (huniq a (List.mem_cons_self _ _) h)
      by_cases ha : f a ∈ seen
      · rw [if_pos ha]
        exact ih hr2 huniq' seen hseen
      · rw [if_neg ha]
        have hnotin : f r ∉ f a :: seen := by
          simp only [List.mem_cons]
          rintro (h | h)
          · exact hne h.symm
          · exact hseen h
        exact List.mem_cons_of_mem a (ih hr2 huniq' (f a :: seen) hnotin)

theorem dedupFirstAux_first_priority {k : κ} {t : α} :
    ∀ (l₁ l₂ : List α) (seen : List κ), (∃ s ∈ l₁, f s = k) → k ∉ seen →
    t ∈ dedupFirstAux f seen (l₁ ++ l₂) → f t = k → t ∈ l₁ := by
  intro l₁
  induction l₁ with
  | nil =>
    rintro l₂ seen ⟨s, hs, _⟩
    cases hs
  | cons a as ih =>
    rintro l₂ seen ⟨s, hs, hfs⟩ hk ht hft
    rw [List.cons_append, dedupFirstAux] at ht
    by_cases ha : f a ∈ seen
    · rw [if_pos ha] at ht
      have hsa : s ≠ a := fun h => hk (hfs ▸ (h ▸ ha))
      have hs' : s ∈ as := by
        rcases List.mem_cons.1 hs with h | h
        · exact absurd h hsa
        · exact h
      exact List.mem_cons_of_mem a (ih l₂ seen ⟨s, hs', hfs⟩ hk ht hft)
    · rw [if_neg ha] at ht
      rcases List.mem_cons.1 ht with rfl | ht2
      · exact List.mem_cons_self _ _
      · by_cases hak : f a = k
        · have hnot := dedupFirstAux_key_not_seen f ht2
          exact absurd (by simp [hft, hak]) hnot
        · have hsa : s ≠ a := fun h => hak (h ▸ hfs)
          have hs' : s ∈ as := by
            rcases List.mem_cons.1 hs with h | h
            · exact absurd h hsa
            · exact h
          have hk' : k ∉ f a :: seen := by
            simp only [List.mem_cons]
            exact fun h => h.elim (fun h1 => hak h1.symm) hk
          exact List.mem_cons_of_mem a (ih l₂ (f a :: seen) ⟨s, hs', hfs⟩ hk' ht2 hft)

theorem mem_of_mem_dedupFirst {l : List α} {t : α}
    (h : t ∈ dedupFirst f l) : t ∈ l :=
  mem_of_mem_dedupFirstAux f h

theorem dedupFirst_key_cover {l : List α} {r : α} (hr : r ∈ l) :
    ∃ t ∈ dedupFirst f l, f t = f r :=
  dedupFirstAux_key_cover f hr [] (by simp)

theorem dedupFirst_keys_nodup (l : List α) : ((dedupFirst f l).map f).Nodup :=
  dedupFirstAux_keys_nodup f [] l

theorem dedupFirst_keep_unique {l : List α} {r : α} (hr : r ∈ l)
    (huniq : ∀ s ∈ l, f s = f r → s = r) : r ∈ dedupFirst f l :=
  dedupFirstAux_keep_unique f hr huniq [] (by simp)

theorem dedupFirst_first_priority {k : κ} {t : α} {l₁ l₂ : List α}
    (hex : ∃ s ∈ l₁, f s = k) (ht : t ∈ dedupFirst f (l₁ ++ l₂))
    (hft : f t = k) : t ∈ l₁ :=
  dedupFirstAux_first_priority f l₁ l₂ [] hex (by simp) ht hft

theorem mem_of_mem_dedupLast {l : List α} {t : α}
    (h : t ∈ dedupLast f l) : t ∈ l := by
  rw [dedupLast, List.mem_reverse] at h
  have := mem_of_mem_dedupFirst f h
  simpa using this

theorem dedupLast_key_cover {l : List α} {r : α} (hr : r ∈ l) :
    ∃ t ∈ dedupLast f l, f t = f r := by
  obtain ⟨t, ht, hft⟩ := dedupFirst_key_cover f (List.mem_reverse.2 hr)
  exact ⟨t, by rw [dedupLast, List.mem_reverse]; exact ht, hft⟩

theorem dedupLast_keys_nodup (l : List α) : ((dedupLast f l).map f).Nodup := by
  rw [dedupLast, List.map_reverse, List.nodup_reverse]
  exact dedupFirst_keys_nodup f l.reverse

theorem dedupLast_keep_unique {l : List α} {r : α} (hr : r ∈ l)
    (huniq : ∀ s ∈ l, f s = f r → s = r) : r ∈ dedupLast f l := by
  rw [dedupLast, List.mem_reverse]
  exact dedupFirst_keep_unique f (List.mem_reverse.2 hr)
    (fun s hs => huniq s (List.mem_reverse.1 hs))

theorem dedupLast_last_priority {k : κ} {t : α} {l₁ l₂ : List α}
    (hex : ∃ s ∈ l₂, f s = k) (ht : t ∈ dedupLast f (l₁ ++ l₂))
    (hft : f t = k) : t ∈ l₂ := by
  rw [dedupLast, List.mem_reverse, List.reverse_append] at ht
  obtain ⟨s, hs, hfs⟩ := hex
  have := dedupFirst_first_priority f ⟨s, List.mem_reverse.2 hs, hfs⟩ ht hft
  exact List.mem_reverse.1 this

end DedupLemmas

namespace VietnamHolidays

/-- C8: for a date whose year has no entry in the lunar-holiday tables (any
year outside 2024–2027), `is_holiday` is true exactly when the date's
(month, day) is one of the four fixed holidays, and `is_trading_day` is true
exactly for the weekdays (Mon–Fri) that are not one of those four dates —
in particular Lunar New Year days of such years count as trading days. -/
theorem c8_holiday_outside_lunar_table (dt : Date)
    (hy : dt.year ∉ [2024, 2025, 2026, 2027]) :
    is_holiday dt = decide ((dt.month, dt.day) ∈ FIXED_HOLIDAYS)
    ∧ (is_trading_day dt = true ↔
        weekday dt < 5 ∧ (dt.month, dt.day) ∉ FIXED_HOLIDAYS) := by
  obtain ⟨h24, h25, h26, h27⟩ :
      dt.year ≠ 2024 ∧ dt.year ≠ 2025 ∧ dt.year ≠ 2026 ∧ dt.year ≠ 2027 := by
    simpa using hy
  have h1 : LUNAR_NEW_YEAR dt.year = none := by
    simp [LUNAR_NEW_YEAR, h24, h25, h26, h27]
  have h2 : HUNG_VUONG dt.year = none := by
    simp [HUNG_VUONG, h24, h25, h26, h27]
  refine ⟨by simp [is_holiday, h1, h2], ?_⟩
  by_cases hw : 5 ≤ weekday dt <;>
    by_cases hm : (dt.month, dt.day) ∈ FIXED_HOLIDAYS <;>
      simp [is_trading_day, is_weekend, is_holiday, h1, h2, hw, hm]
  all_goals omega

/-- Witness for C8 at 2028-01-26, a Lunar New Year day of 2028 (a year absent
from the tables) falling on a Wednesday: it is classified a trading day. -/
theorem c8_holiday_outside_lunar_table_witness :
    (⟨2028, 1, 26⟩ : Date).year ∉ [2024, 2025, 2026, 2027]
    ∧ is_trading_day ⟨2028, 1, 26⟩ = true :=
  ⟨by decide,
    (c8_holiday_outside_lunar_table ⟨2028, 1, 26⟩ (by decide)).2.mpr (by decide)⟩

end VietnamHolidays

namespace Price

/-- The loop ends without a usable dataframe exactly when every source in the
list raised or returned an empty frame. -/
theorem fallbackFetch_none_iff {Row : Type} (fetch : Source → FetchResult Row)
    (ss : List Source) :
    (fallbackFetch fetch ss).1 = none ↔ ∀ s ∈ ss, sourceFailed fetch s := by
  induction ss with
  | nil => simp [fallbackFetch]
  | cons s rest ih =>
    cases hs : fetch s with
    | ok rows =>
      by_cases hr : rows.isEmpty
      · have hrows : rows = [] := by simpa using hr
        simp [fallbackFetch, hs, hr, sourceFailed, ih, hrows]
      · have hrows : rows ≠ [] := by simpa using hr
        have hval : (fallbackFetch fetch (s :: rest)).1 = some rows := by
          simp [fallbackFetch, hs, hr]
        rw [hval]
        constructor
        · intro h
          exact absurd h (by simp)
        · intro hall
          exfalso
          rcases hall s (by simp) with he | he
          · rw [hs] at he
            exact FetchResult.noConfusion he
          · rw [hs] at he
            injection he with h2
            exact hrows h2
    | err => simp [fallbackFetch, hs, sourceFailed, ih]

/-- C3: the price scraper tries SSI, VCI, TCBS in that fixed order; it uses
the result of the first source returning a non-empty dataframe and contacts
no later source; and it records the ticker as having no data exactly when
all three sources raise or return an empty result. -/
theorem c3_fallback_source_order {Row : Type} (fetch : Source → FetchResult Row) :
    (∀ rows, fetch .SSI = .ok rows → rows ≠ [] →
        scrapeTicker fetch = (some rows, [.SSI]))
    ∧ (∀ rows, sourceFailed fetch .SSI → fetch .VCI = .ok rows → rows ≠ [] →
        scrapeTicker fetch = (some rows, [.SSI, .VCI]))
    ∧ (∀ rows, sourceFailed fetch .SSI → sourceFailed fetch .VCI →
        fetch .TCBS = .ok rows → rows ≠ [] →
        scrapeTicker fetch = (some rows, [.SSI, .VCI, .TCBS]))
    ∧ ((scrapeTicker fetch).1 = none ↔
        sourceFailed fetch .SSI ∧ sourceFailed fetch .VCI ∧ sourceFailed fetch .TCBS) := by
  refine ⟨?_, ?_, ?_, ?_⟩
  · intro rows hS hne
    have hr : rows.isEmpty = false := by simpa using hne
    simp [scrapeTicker, sources_to_try, fallbackFetch, hS, hr]
  · intro rows hSf hV hne
    have hr : rows.isEmpty = false := by simpa using hne
    rcases hSf with hS | hS <;>
      simp [scrapeTicker, sources_to_try, fallbackFetch, hS, hV, hr]
  · intro rows hSf hVf hT hne
    have hr : rows.isEmpty = false := by simpa using hne
    rcases hSf with hS | hS <;> rcases hVf with hV | hV <;>
      simp [scrapeTicker, sources_to_try, fallbackFetch, hS, hV, hT, hr]
  · rw [scrapeTicker, fallbackFetch_none_iff]
    simp [sources_to_try, List.forall_mem_cons]

/-- Witness for C3: with SSI raising and VCI returning one row, the loop
returns VCI's rows having contacted exactly SSI then VCI. -/
theorem c3_fallback_source_order_witness :
    sourceFailed fetchW .SSI ∧ fetchW .VCI = .ok [7] ∧ ([7] : List Nat) ≠ []
    ∧ scrapeTicker fetchW = (some [7], [.SSI, .VCI]) :=
  ⟨Or.inl rfl, rfl, by decide,
    (c3_fallback_source_order fetchW).2.1 [7] (Or.inl rfl) rfl (by decide)⟩

end Price

namespace DataArchiver

/-- C1 as stated is false: when every Sheets row is strictly before the
cutoff, `recent_data` is empty, so the worksheet is *not* rewritten: the
pre-cutoff row is archived into SQLite yet remains in Sheets, while the
claim demands that afterwards Sheets contain exactly the on/after-cutoff
rows (here: none). -/
theorem c1_archive_counterexample :
    stOldOnly.sheets ≠ []
    ∧ rowOld.timestamp < 20250101
    ∧ rowOld ∈ (archive_old_data 20250101 stOldOnly).sqlite
    ∧ (archive_old_data 20250101 stOldOnly).sheets = [rowOld]
    ∧ (archive_old_data 20250101 stOldOnly).sheets
        ≠ stOldOnly.sheets.filter (fun r => 20250101 ≤ r.timestamp) := by
  have h : archive_old_data 20250101 stOldOnly =
      ⟨[rowOld], [rowOld]⟩ := by
    simp [archive_old_data, stOldOnly, rowOld]
  refine ⟨by simp [stOldOnly], by norm_num [rowOld], ?_, ?_, ?_⟩
  · rw [h]; simp
  · rw [h]
  · rw [h]
    simp [stOldOnly, rowOld]

/-- C1 (amended): with a non-empty worksheet, every row with timestamp
strictly before the cutoff is appended to the SQLite `price_history` table;
when at least one row is on/after the cutoff the worksheet afterwards holds
exactly those rows; when every row is pre-cutoff the worksheet is left
unchanged (the archived rows also remain in Sheets). -/
theorem c1_archive_amended (cutoff : Nat) (st : HybridState)
    (hne : st.sheets ≠ []) :
    (archive_old_data cutoff st).sqlite
      = st.sqlite ++ st.sheets.filter (fun r => r.timestamp < cutoff)
    ∧ (st.sheets.filter (fun r => cutoff ≤ r.timestamp) ≠ [] →
        (archive_old_data cutoff st).sheets
          = st.sheets.filter (fun r => cutoff ≤ r.timestamp))
    ∧ (st.sheets.filter (fun r => cutoff ≤ r.timestamp) = [] →
        (archive_old_data cutoff st).sheets = st.sheets) := by
  have hse : st.sheets.isEmpty = false := by simpa using hne
  by_cases hold : (st.sheets.filter (fun r => r.timestamp < cutoff)).isEmpty
  · have holdnil : st.sheets.filter (fun r => r.timestamp < cutoff) = [] := by
      simpa using hold
    have hall : ∀ r ∈ st.sheets, cutoff ≤ r.timestamp := by
      intro r hr
      have := List.filter_eq_nil_iff.1 holdnil r hr
      simpa using this
    have hrecent : st.sheets.filter (fun r => cutoff ≤ r.timestamp) = st.sheets := by
      rw [List.filter_eq_self]
      intro r hr
      simpa using hall r hr
    refine ⟨?_, ?_, ?_⟩
    · simp [archive_old_data, hse, hold, holdnil]
    · intro _
      simp [archive_old_data, hse, hold, hrecent]
    · intro _
      simp [archive_old_data, hse, hold]
  · by_cases hrec : (st.sheets.filter (fun r => cutoff ≤ r.timestamp)).isEmpty
    · have hrecnil : st.sheets.filter (fun r => cutoff ≤ r.timestamp) = [] := by
        simpa using hrec
      exact ⟨by simp [archive_old_data, hse, hold],
        fun hc => absurd hrecnil hc,
        fun _ => by simp [archive_old_data, hse, hold, hrec]⟩
    · have hrecne : st.sheets.filter (fun r => cutoff ≤ r.timestamp) ≠ [] := by
        simpa using hrec
      exact ⟨by simp [archive_old_data, hse, hold],
        fun _ => by simp [archive_old_data, hse, hold, hrec],
        fun hc => absurd hc hrecne⟩

/-- Witness for C1 (amended) on the concrete store `stOldOnly`. -/
theorem c1_archive_amended_witness :
    stOldOnly.sheets ≠ []
    ∧ (archive_old_data 20250101 stOldOnly).sqlite
      = stOldOnly.sqlite ++ stOldOnly.sheets.filter (fun r => r.timestamp < 20250101) :=
  ⟨by simp [stOldOnly], (c1_archive_amended 20250101 stOldOnly (by simp [stOldOnly])).1⟩

/-- C4: `get_historical_data` returns rows drawn from the union of the SQLite
selection (ticker match, timestamp in `[start, min(end, cutoff)]`) and the
Sheets selection (ticker match, timestamp in `[max(start, cutoff), end]`);
every selected `(timestamp, ticker)` pair is represented in the result; the
result has at most one row per `(timestamp, ticker)` pair and is sorted by
non-decreasing timestamp; and when neither store has matching rows the
result is empty. -/
theorem c4_get_historical_data_union (cutoff : Nat) (st : HybridState)
    (ticker : String) (start_date end_date : Nat) :
    (∀ r ∈ get_historical_data cutoff st ticker start_date end_date,
        r ∈ sqliteQuery cutoff st ticker start_date end_date
        ∨ r ∈ sheetsQuery cutoff st ticker start_date end_date)
    ∧ (∀ r, (r ∈ sqliteQuery cutoff st ticker start_date end_date
          ∨ r ∈ sheetsQuery cutoff st ticker start_date end_date) →
        ∃ t ∈ get_historical_data cutoff st ticker start_date end_date,
          (t.timestamp, t.ticker) = (r.timestamp, r.ticker))
    ∧ ((get_historical_data cutoff st ticker start_date end_date).map
        (fun r => (r.timestamp, r.ticker))).Nodup
    ∧ List.Sorted (fun a b => a.timestamp ≤ b.timestamp)
        (get_historical_data cutoff st ticker start_date end_date)
    ∧ (sqliteQuery cutoff st ticker start_date end_date = [] →
        sheetsQuery cutoff st ticker start_date end_date = [] →
        get_historical_data cutoff st ticker start_date end_date = []) := by
  by_cases hb : (sqliteQuery cutoff st ticker start_date end_date).isEmpty
      && (sheetsQuery cutoff st ticker start_date end_date).isEmpty
  · have hq : get_historical_data cutoff st ticker start_date end_date = [] := by
      simp only [get_historical_data]
      rw [if_pos hb]
    rw [hq]
    obtain ⟨h1, h2⟩ := Bool.and_eq_true_iff.1 hb
    have h1' : sqliteQuery cutoff st ticker start_date end_date = [] := by simpa using h1
    have h2' : sheetsQuery cutoff st ticker start_date end_date = [] := by simpa using h2
    refine ⟨by simp, ?_, by simp, by simp, fun _ _ => rfl⟩
    intro r hr
    rw [h1', h2'] at hr
    simp at hr
  · have hq : get_historical_data cutoff st ticker start_date end_date =
        dedupFirst (fun r => (r.timestamp, r.ticker))
          (sortByTimestamp (sqliteQuery cutoff st ticker start_date end_date
            ++ sheetsQuery cutoff st ticker start_date end_date)) := by
      simp only [get_historical_data]
      rw [if_neg hb]
    refine ⟨?_, ?_, ?_, ?_, ?_⟩
    · intro r hr
      rw [hq] at hr
      have hr2 := mem_of_mem_dedupFirst _ hr
      rw [sortByTimestamp, (List.perm_insertionSort _ _).mem_iff] at hr2
      exact List.mem_append.1 hr2
    · intro r hr
      have hr2 : r ∈ sortByTimestamp (sqliteQuery cutoff st ticker start_date end_date
          ++ sheetsQuery cutoff st ticker start_date end_date) := by
        rw [sortByTimestamp, (List.perm_insertionSort _ _).mem_iff]
        exact List.mem_append.2 hr
      obtain ⟨t, ht, hft⟩ := dedupFirst_key_cover (fun r => (r.timestamp, r.ticker)) hr2
      exact ⟨t, hq ▸ ht, hft⟩
    · rw [hq]
      exact dedupFirst_keys_nodup _ _
    · rw [hq]
      exact List.Pairwise.sublist (dedupFirstAux_sublist _ [] _)
        (List.sorted_insertionSort _ _)
    · intro h1 h2
      rw [h1, h2] at hb
      simp at hb

/-- Witness for C4 on the concrete store `stW`: the archived row `rowOld`
matches the SQLite selection and its key appears in the merged result. -/
theorem c4_get_historical_data_union_witness :
    (rowOld ∈ sqliteQuery 20250101 stW "AAA" 20190101 20270101
      ∨ rowOld ∈ sheetsQuery 20250101 stW "AAA" 20190101 20270101)
    ∧ ∃ t ∈ get_historical_data 20250101 stW "AAA" 20190101 20270101,
        (t.timestamp, t.ticker) = (rowOld.timestamp, rowOld.ticker) :=
  ⟨Or.inl (by decide),
    (c4_get_historical_data_union 20250101 stW "AAA" 20190101 20270101).2.1
      rowOld (Or.inl (by decide))⟩

end DataArchiver

/-! ### Merge-by-key (C2) -/

theorem mem_write_to_sheet_merge_iff (hq : Bool)
    (new_df old_df : List Finance.FinRow) (t : Finance.FinRow) :
    t ∈ Finance.write_to_sheet_merge hq new_df old_df ↔
      t ∈ (if old_df.isEmpty then new_df
           else if new_df.isEmpty then old_df
           else dedupFirst (Finance.finKey hq) (new_df ++ old_df)) := by
  simp only [Finance.write_to_sheet_merge]
  exact (List.perm_insertionSort _ _).mem_iff

theorem mem_updateModeMerge_iff (existing final_df : List Price.PriceRow)
    (t : Price.PriceRow) :
    t ∈ Price.updateModeMerge existing final_df ↔
      t ∈ (if existing.isEmpty then final_df
           else dedupLast Price.priceKey (existing ++ final_df)) := by
  rw [Price.updateModeMerge]
  by_cases h : existing.isEmpty
  · rw [if_pos h, if_pos h]
  · rw [if_neg h, if_neg h]
    exact (List.perm_insertionSort _ _).mem_iff

/-- C2: both spreadsheet write paths merge incoming rows with stored rows by
a composite key — `(ticker, year, quarter)` (or `(ticker, year)` without a
quarter column) for the financial-statement sheets, `(ticker, date)` for the
price sheet in update mode.  Merged rows come from the incoming or the
stored data; a merged row whose key occurs among the incoming rows is an
incoming row (the incoming row replaces the stored one); every incoming key
is represented; and stored rows whose keys do not occur in the incoming data
are kept unchanged (assuming, as every store written by these paths
satisfies, that stored keys are pairwise distinct). -/
theorem c2_merge_by_composite_key (hq : Bool)
    (new_df old_df : List Finance.FinRow)
    (existing final_df : List Price.PriceRow)
    (hOld : (old_df.map (Finance.finKey hq)).Nodup)
    (hEx : (existing.map Price.priceKey).Nodup) :
    (∀ t ∈ Finance.write_to_sheet_merge hq new_df old_df,
        t ∈ new_df ∨ t ∈ old_df)
    ∧ (∀ t ∈ Finance.write_to_sheet_merge hq new_df old_df,
        (∃ s ∈ new_df, Finance.finKey hq s = Finance.finKey hq t) → t ∈ new_df)
    ∧ (∀ s ∈ new_df, ∃ t ∈ Finance.write_to_sheet_merge hq new_df old_df,
        Finance.finKey hq t = Finance.finKey hq s)
    ∧ (∀ r ∈ old_df, (∀ s ∈ new_df, Finance.finKey hq s ≠ Finance.finKey hq r) →
        r ∈ Finance.write_to_sheet_merge hq new_df old_df)
    ∧ (∀ t ∈ Price.updateModeMerge existing final_df,
        t ∈ existing ∨ t ∈ final_df)
    ∧ (∀ t ∈ Price.updateModeMerge existing final_df,
        (∃ s ∈ final_df, Price.priceKey s = Price.priceKey t) → t ∈ final_df)
    ∧ (∀ s ∈ final_df, ∃ t ∈ Price.updateModeMerge existing final_df,
        Price.priceKey t = Price.priceKey s)
    ∧ (∀ r ∈ existing, (∀ s ∈ final_df, Price.priceKey s ≠ Price.priceKey r) →
        r ∈ Price.updateModeMerge existing final_df) := by
  refine ⟨?_, ?_, ?_, ?_, ?_, ?_, ?_, ?_⟩
  · intro t ht
    rw [mem_write_to_sheet_merge_iff] at ht
    by_cases h1 : old_df.isEmpty
    · rw [if_pos h1] at ht
      exact Or.inl ht
    · rw [if_neg h1] at ht
      by_cases h2 : new_df.isEmpty
      · rw [if_pos h2] at ht
        exact Or.inr ht
      · rw [if_neg h2] at ht
        exact List.mem_append.1 (mem_of_mem_dedupFirst _ ht)
  · intro t ht hex
    rw [mem_write_to_sheet_merge_iff] at ht
    by_cases h1 : old_df.isEmpty
    · rwa [if_pos h1] at ht
    · rw [if_neg h1] at ht
      by_cases h2 : new_df.isEmpty
      · obtain ⟨s, hs, _⟩ := hex
        rw [List.isEmpty_iff] at h2
        rw [h2] at hs
        cases hs
      · rw [if_neg h2] at ht
        exact dedupFirst_first_priority (Finance.finKey hq) hex ht rfl
  · intro s hs
    by_cases h1 : old_df.isEmpty
    · exact ⟨s, (mem_write_to_sheet_merge_iff hq new_df old_df s).2 (by rw [if_pos h1]; exact hs), rfl⟩
    · by_cases h2 : new_df.isEmpty
      · rw [List.isEmpty_iff] at h2
        rw [h2] at hs
        cases hs
      · obtain ⟨t, ht, hft⟩ := dedupFirst_key_cover (Finance.finKey hq)
          (List.mem_append.2 (Or.inl hs))
        refine ⟨t, (mem_write_to_sheet_merge_iff hq new_df old_df t).2 ?_, hft⟩
        rw [if_neg h1, if_neg h2]
        exact ht
  · intro r hr hnone
    rw [mem_write_to_sheet_merge_iff]
    by_cases h1 : old_df.isEmpty
    · rw [List.isEmpty_iff] at h1
      rw [h1] at hr
      cases hr
    · rw [if_neg h1]
      by_cases h2 : new_df.isEmpty
      · rw [if_pos h2]
        exact hr
      · rw [if_neg h2]
        apply dedupFirst_keep_unique (Finance.finKey hq) (List.mem_append.2 (Or.inr hr))
        intro s hsmem hkey
        rcases List.mem_append.1 hsmem with hsn | hso
        · exact absurd hkey (hnone s hsn)
        · exact List.inj_on_of_nodup_map hOld hso hr hkey
  · intro t ht
    rw [mem_updateModeMerge_iff] at ht
    by_cases h1 : existing.isEmpty
    · rw [if_pos h1] at ht
      exact Or.inr ht
    · rw [if_neg h1] at ht
      exact List.mem_append.1 (mem_of_mem_dedupLast _ ht)
  · intro t ht hex
    rw [mem_updateModeMerge_iff] at ht
    by_cases h1 : existing.isEmpty
    · rwa [if_pos h1] at ht
    · rw [if_neg h1] at ht
      exact dedupLast_last_priority Price.priceKey hex ht rfl
  · intro s hs
    by_cases h1 : existing.isEmpty
    · exact ⟨s, (mem_updateModeMerge_iff existing final_df s).2 (by rw [if_pos h1]; exact hs), rfl⟩
    · obtain ⟨t, ht, hft⟩ := dedupLast_key_cover Price.priceKey
        (List.mem_append.2 (Or.inr hs))
      refine ⟨t, (mem_updateModeMerge_iff existing final_df t).2 ?_, hft⟩
      rw [if_neg h1]
      exact ht
  · intro r hr hnone
    rw [mem_updateModeMerge_iff]
    by_cases h1 : existing.isEmpty
    · rw [List.isEmpty_iff] at h1
      rw [h1] at hr
      cases hr
    · rw [if_neg h1]
      apply dedupLast_keep_unique Price.priceKey (List.mem_append.2 (Or.inl hr))
      intro s hsmem hkey
      rcases List.mem_append.1 hsmem with hse | hsf
      · exact List.inj_on_of_nodup_map hEx hse hr hkey
      · exact absurd hkey (hnone s hsf)

/-- Witness for C2 on concrete sheets: the incoming key is represented in
the merged financial sheet, the untouched stored row survives, and likewise
for the price sheet in update mode. -/
theorem c2_merge_by_composite_key_witness :
    (([Finance.finOldRow, Finance.finKeepRow].map (Finance.finKey true)).Nodup)
    ∧ (([Price.prOldRow, Price.prKeepRow].map Price.priceKey).Nodup)
    ∧ (∃ t ∈ Finance.write_to_sheet_merge true [Finance.finNewRow]
          [Finance.finOldRow, Finance.finKeepRow],
        Finance.finKey true t = Finance.finKey true Finance.finNewRow)
    ∧ Finance.finKeepRow ∈ Finance.write_to_sheet_merge true [Finance.finNewRow]
        [Finance.finOldRow, Finance.finKeepRow]
    ∧ Price.prKeepRow ∈ Price.updateModeMerge [Price.prOldRow, Price.prKeepRow]
        [Price.prNewRow] := by
  have h := c2_merge_by_composite_key true [Finance.finNewRow]
    [Finance.finOldRow, Finance.finKeepRow] [Price.prOldRow, Price.prKeepRow]
    [Price.prNewRow] (by decide) (by decide)
  refine ⟨by decide, by decide, ?_, ?_, ?_⟩
  · exact h.2.2.1 Finance.finNewRow (by decide)
  · exact h.2.2.2.1 Finance.finKeepRow (by decide) (by decide)
  · exact h.2.2.2.2.2.2.2 Price.prKeepRow (by decide) (by decide)

namespace TechnicalAnalysis

/-! ### C10: the caller's dataframe is never mutated -/

theorem readF_alloc_lt (h : Heap) (d : List CRow) (i : Nat)
    (hi : i < h.frames.length) : readF (alloc h d).1 i = readF h i := by
  simp only [readF, alloc, List.getD_eq_getElem?_getD]
  rw [List.getElem?_append_left hi]

theorem readF_writeF_ne (h : Heap) (j i : Nat) (d : List CRow)
    (hne : j ≠ i) : readF (writeF h j d) i = readF h i := by
  simp only [readF, writeF, List.getD_eq_getElem?_getD]
  rw [List.getElem?_set_ne hne]

theorem frames_length_alloc (h : Heap) (d : List CRow) :
    (alloc h d).1.frames.length = h.frames.length + 1 := by
  simp [alloc]

theorem frames_length_writeF (h : Heap) (j : Nat) (d : List CRow) :
    (writeF h j d).frames.length = h.frames.length := by
  simp [writeF]

/-- C10: running `__init__` (including its numeric coercion, `dropna` and
indicator-column writes) leaves every pre-existing frame — in particular the
caller's dataframe — unchanged: all copies are fresh allocations and all
in-place writes target them. -/
theorem c10_init_never_mutates_caller (h : Heap) (dfId days : Nat)
    (hlt : dfId < h.frames.length) :
    readF (analyzerInitH h dfId days).1 dfId = readF h dfId := by
  simp only [analyzerInitH, alloc, writeF, readF, List.getD_eq_getElem?_getD,
    List.length_append, List.length_set, List.length_cons, List.length_nil]
  rw [List.getElem?_set_ne (by simp; omega), List.getElem?_append_left (by simp; omega),
    List.getElem?_set_ne (by simp; omega), List.getElem?_append_left (by simp; omega),
    List.getElem?_append_left (by omega)]

/-- Witness for C10 on a concrete two-row frame with a non-numeric close
cell (so the coercion write really changes the working copy). -/
theorem c10_init_never_mutates_caller_witness :
    0 < hW.frames.length
    ∧ readF (analyzerInitH hW 0 400).1 0 = readF hW 0 :=
  ⟨by decide, c10_init_never_mutates_caller hW 0 400 (by decide)⟩

/-! ### C9: defaults when fewer than 20 valid closes -/

/-- C9: when the input frame has fewer than 20 rows with a valid numeric
close, the indicator guard fails and every getter returns its fixed default:
`get_current_price` the last close (`0` on an empty frame), `get_ma` `0` for
every period, `get_rsi` `50`, `get_volume_ratio` `1.0`, and
`detect_volume_spike` (threshold 1.5) `False`.  (All getters are total
functions of the model: none raises.) -/
theorem c9_small_frame_defaults (df : List RawRow) (days : Nat)
    (hlt : (df.filter (fun r => r.rclose.isSome)).length < 20) :
    (closes (analyzerInit df days) = [] → get_current_price (analyzerInit df days) = 0)
    ∧ (∀ v, (closes (analyzerInit df days)).getLast? = some v →
        get_current_price (analyzerInit df days) = v)
    ∧ (∀ p, get_ma (analyzerInit df days) p = 0)
    ∧ get_rsi (analyzerInit df days) = some 50
    ∧ volRatioVal (analyzerInit df days) = some 1
    ∧ detect_volume_spike (analyzerInit df days) (3 / 2) = false := by
  have hsub : List.Sublist (analyzerInit df days).rows
      (df.filter (fun r => r.rclose.isSome)) := by
    rw [analyzerInit]
    by_cases hdays : days < df.length
    · rw [if_pos hdays]
      exact List.Sublist.filter _ (List.drop_sublist _ _)
    · rw [if_neg hdays]
  have hlen : (analyzerInit df days).rows.length < 20 :=
    lt_of_le_of_lt hsub.length_le hlt
  have hind : hasIndicatorCols (analyzerInit df days) = false := by
    simp [hasIndicatorCols]
    omega
  refine ⟨?_, ?_, ?_, ?_, ?_, ?_⟩
  · intro h
    simp [get_current_price, h]
  · intro v hv
    simp [get_current_price, hv]
  · intro p
    simp [get_ma, hind]
  · simp [get_rsi, hind]
  · simp [volRatioVal, hind]
  · simp [detect_volume_spike, volRatioVal, hind]
    norm_num

/-- Witness for C9 on the one-row frame `dfSmall`. -/
theorem c9_small_frame_defaults_witness :
    (dfSmall.filter (fun r => r.rclose.isSome)).length < 20
    ∧ get_rsi (analyzerInit dfSmall 400) = some 50 :=
  ⟨by decide, (c9_small_frame_defaults dfSmall 400 (by decide)).2.2.2.1⟩

end TechnicalAnalysis

namespace TechnicalAnalysis

/-! ### C6: moving averages and MACD -/

theorem rollingMean_getElem (w : Nat) (xs : List ℚ) (i : Nat) (hi : i < xs.length) :
    (rollingMean w xs)[i]? =
      some (if i + 1 < w then none
        else some (((xs.drop (i + 1 - w)).take w).sum / w)) := by
  simp [rollingMean, List.getElem?_map, List.getElem?_range, hi]

/-- The `adjust=False` EWM recurrence, stated on the seeded chain: entry
`i + 1` of `seed :: emaAux al seed l` is `(1 - al) * previous + al * input`. -/
theorem emaAux_recurrence (al : ℚ) :
    ∀ (l : List ℚ) (y : ℚ) (i : Nat) (v w : ℚ),
      (y :: emaAux al y l)[i]? = some v → l[i]? = some w →
      (emaAux al y l)[i]? = some ((1 - al) * v + al * w) := by
  intro l
  induction l with
  | nil =>
    intro y i v w _ hw
    simp at hw
  | cons x ls ih =>
    intro y i v w hv hw
    match i with
    | 0 =>
      simp only [List.getElem?_cons_zero, Option.some.injEq] at hv hw
      subst hv
      subst hw
      simp [emaAux]
    | Nat.succ j =>
      have hv' : (((1 - al) * y + al * x) :: emaAux al ((1 - al) * y + al * x) ls)[j]?
          = some v := by
        simpa [emaAux] using hv
      have hw' : ls[j]? = some w := by simpa using hw
      simpa [emaAux] using ih ((1 - al) * y + al * x) j v w hv' hw'

theorem ewmMean_seed (span : Nat) (xs : List ℚ) (hne : xs ≠ []) :
    (ewmMean span xs)[0]? = xs[0]? := by
  match xs with
  | [] => exact absurd rfl hne
  | x :: rest => simp [ewmMean]

theorem ewmMean_recurrence (span : Nat) (xs : List ℚ) (i : Nat) (y x' : ℚ)
    (hy : (ewmMean span xs)[i]? = some y) (hx : xs[i + 1]? = some x') :
    (ewmMean span xs)[i + 1]?
      = some ((1 - emaAlpha span) * y + emaAlpha span * x') := by
  match xs with
  | [] => simp at hx
  | x :: rest =>
    simp only [ewmMean] at hy ⊢
    have hx' : rest[i]? = some x' := by simpa using hx
    simpa using emaAux_recurrence (emaAlpha span) rest x i y x' hy hx'

/-- C6: with at least 20 valid closes the analyzer's MA20/MA50/MA200 columns
are the 20/50/200-row rolling means of close, the MACD line is the 12-span
EMA minus the 26-span EMA of close with `adjust=False` (seed = first close,
then `y' = (1-α)y + αx` with `α = 2/(span+1)`), the signal line is the
9-span EMA of the MACD line, and the histogram is MACD minus signal. -/
theorem c6_ma_macd_columns (a : TechnicalAnalyzer) (_h20 : 20 ≤ a.rows.length) :
    (∀ w, (w = 20 ∨ w = 50 ∨ w = 200) → ∀ i, i < (closes a).length →
      (MAcol w a)[i]? = some (if i + 1 < w then none
          else some ((((closes a).drop (i + 1 - w)).take w).sum / w)))
    ∧ emaAlpha 12 = 2 / 13 ∧ emaAlpha 26 = 2 / 27 ∧ emaAlpha 9 = 1 / 5
    ∧ (closes a ≠ [] →
        (ewmMean 12 (closes a))[0]? = (closes a)[0]?
        ∧ (ewmMean 26 (closes a))[0]? = (closes a)[0]?)
    ∧ (∀ (sp i : Nat) (y x' : ℚ), (ewmMean sp (closes a))[i]? = some y →
        (closes a)[i + 1]? = some x' →
        (ewmMean sp (closes a))[i + 1]?
          = some ((1 - emaAlpha sp) * y + emaAlpha sp * x'))
    ∧ (∀ (i : Nat) (x y : ℚ), (ewmMean 12 (closes a))[i]? = some x →
        (ewmMean 26 (closes a))[i]? = some y → (MACDcol a)[i]? = some (x - y))
    ∧ (MACDcol a ≠ [] → (MACDsignalCol a)[0]? = (MACDcol a)[0]?)
    ∧ (∀ (i : Nat) (y m : ℚ), (MACDsignalCol a)[i]? = some y → (MACDcol a)[i + 1]? = some m →
        (MACDsignalCol a)[i + 1]? = some ((1 - emaAlpha 9) * y + emaAlpha 9 * m))
    ∧ (∀ (i : Nat) (x y : ℚ), (MACDcol a)[i]? = some x → (MACDsignalCol a)[i]? = some y →
        (MACDhistCol a)[i]? = some (x - y)) := by
  refine ⟨?_, by norm_num [emaAlpha], by norm_num [emaAlpha], by norm_num [emaAlpha],
    ?_, ?_, ?_, ?_, ?_, ?_⟩
  · intro w _ i hi
    exact rollingMean_getElem w (closes a) i hi
  · intro hne
    exact ⟨ewmMean_seed 12 _ hne, ewmMean_seed 26 _ hne⟩
  · intro sp i y x' hy hx
    exact ewmMean_recurrence sp _ i y x' hy hx
  · intro i x y hx hy
    simp [MACDcol, List.getElem?_zipWith, hx, hy]
  · intro hne
    simpa only [MACDsignalCol] using ewmMean_seed 9 _ hne
  · intro i y m hy hm
    simpa only [MACDsignalCol] using ewmMean_recurrence 9 (MACDcol a) i y m hy hm
  · intro i x y hx hy
    simp [MACDhistCol, List.getElem?_zipWith, hx, hy]

/-- Witness for C6 on the 21-row frame `dfAlt`, at the MA20 column, row 19. -/
theorem c6_ma_macd_columns_witness :
    20 ≤ (analyzerInit dfAlt 400).rows.length
    ∧ (MAcol 20 (analyzerInit dfAlt 400))[19]?
      = some (if 19 + 1 < 20 then none
          else some ((((closes (analyzerInit dfAlt 400)).drop (19 + 1 - 20)).take 20).sum / 20)) :=
  ⟨by decide,
    (c6_ma_macd_columns (analyzerInit dfAlt 400) (by decide)).1 20 (Or.inl rfl) 19 (by decide)⟩

end TechnicalAnalysis

namespace TechnicalAnalysis

/-! ### C5: the RSI actually computed -/

/-- Closed form of the RSI pipeline: with at least 20 rows (guard passes)
and a non-zero 14-delta loss average, `get_rsi` is `100 - 100 / (1 + RS)`
where `RS` is the ratio of the *simple* 14-period rolling means of gains and
losses over the last 14 deltas of close. -/
theorem rsiLast_closed_form (a : TechnicalAnalyzer)
    (h20 : 20 ≤ a.rows.length) (hc : 20 ≤ (closes a).length)
    (hloss : ((((deltas (closes a)).drop ((deltas (closes a)).length - 14)).map negPart).sum / 14 : ℚ) ≠ 0) :
    get_rsi a = some (100 - 100 /
      (1 + ((((deltas (closes a)).drop ((deltas (closes a)).length - 14)).map posPart).sum / 14)
        / ((((deltas (closes a)).drop ((deltas (closes a)).length - 14)).map negPart).sum / 14))) := by
  have hdsl : (deltas (closes a)).length = (closes a).length - 1 := by
    rw [deltas, List.length_zipWith, List.length_tail]
    exact Nat.min_eq_left (Nat.sub_le _ _)
  have hgl : (gainList (closes a)).length = (closes a).length := by
    simp [gainList, hdsl]
    omega
  have hll : (lossList (closes a)).length = (closes a).length := by
    simp [lossList, hdsl]
    omega
  have hwin : ∀ f : ℚ → ℚ,
      (((0 : ℚ) :: (deltas (closes a)).map f).drop ((closes a).length - 1 + 1 - 14)).take 14
        = ((deltas (closes a)).drop ((deltas (closes a)).length - 14)).map f := by
    intro f
    have h1 : (closes a).length - 1 + 1 - 14 = ((closes a).length - 15) + 1 := by omega
    rw [h1, List.drop_succ_cons]
    have h3 : (closes a).length - 15 = (deltas (closes a)).length - 14 := by omega
    rw [h3, ← List.map_drop]
    apply List.take_of_length_le
    simp [hdsl]
    omega
  have hrg : (rollingMean 14 (gainList (closes a)))[(closes a).length - 1]?
      = some (some ((((deltas (closes a)).drop ((deltas (closes a)).length - 14)).map posPart).sum / 14)) := by
    rw [rollingMean_getElem 14 _ _ (by rw [hgl]; omega)]
    rw [if_neg (by omega)]
    rw [show gainList (closes a) = (0 : ℚ) :: (deltas (closes a)).map posPart from rfl]
    rw [hwin posPart]
    norm_num
  have hrl : (rollingMean 14 (lossList (closes a)))[(closes a).length - 1]?
      = some (some ((((deltas (closes a)).drop ((deltas (closes a)).length - 14)).map negPart).sum / 14)) := by
    rw [rollingMean_getElem 14 _ _ (by rw [hll]; omega)]
    rw [if_neg (by omega)]
    rw [show lossList (closes a) = (0 : ℚ) :: (deltas (closes a)).map negPart from rfl]
    rw [hwin negPart]
    norm_num
  have hcol : (rsiCol (closes a))[(closes a).length - 1]?
      = some (some (100 - 100 /
        (1 + ((((deltas (closes a)).drop ((deltas (closes a)).length - 14)).map posPart).sum / 14)
          / ((((deltas (closes a)).drop ((deltas (closes a)).length - 14)).map negPart).sum / 14)))) := by
    simp only [rsiCol, List.getElem?_zipWith, hrg, hrl]
    rw [if_neg hloss]
  have hcl : (rsiCol (closes a)).length = (closes a).length := by
    simp [rsiCol, List.length_zipWith, rollingMean, hgl, hll]
  have hlast : (rsiCol (closes a)).getLast?
      = some (some (100 - 100 /
        (1 + ((((deltas (closes a)).drop ((deltas (closes a)).length - 14)).map posPart).sum / 14)
          / ((((deltas (closes a)).drop ((deltas (closes a)).length - 14)).map negPart).sum / 14)))) := by
    rw [List.getLast?_eq_getElem?, hcl]
    exact hcol
  have hind : hasIndicatorCols a = true := by
    simp [hasIndicatorCols, h20]
  have hnall : (rsiCol (closes a)).all (fun c => c.isNone) = false := by
    rcases Bool.eq_false_or_eq_true ((rsiCol (closes a)).all (fun c => c.isNone)) with ht | hf
    · exfalso
      have hmem := List.getElem?_mem hcol
      have := List.all_eq_true.1 ht _ hmem
      simp at this
    · exact hf
  simp only [get_rsi, hind, if_true, hnall, hlast]
  simp

/-- C5 (amended): the analyzer computes RSI with *simple* 14-period rolling
means of the gains and losses (Cutler's variant), not Wilder's smoothed
averages; for at least 20 valid closes and a non-zero loss average over the
last 14 deltas, `get_rsi` returns `100 - 100/(1 + RS)` with `RS` the ratio
of those two window means. -/
theorem c5_rsi_simple_mean_amended (a : TechnicalAnalyzer)
    (h20 : 20 ≤ a.rows.length) (hc : 20 ≤ (closes a).length)
    (hloss : ((((deltas (closes a)).drop ((deltas (closes a)).length - 14)).map negPart).sum / 14 : ℚ) ≠ 0) :
    get_rsi a = some (100 - 100 /
      (1 + ((((deltas (closes a)).drop ((deltas (closes a)).length - 14)).map posPart).sum / 14)
        / ((((deltas (closes a)).drop ((deltas (closes a)).length - 14)).map negPart).sum / 14))) :=
  rsiLast_closed_form a h20 hc hloss

/-- Witness for C5 (amended) on the alternating 21-close frame `dfAlt`. -/
theorem c5_rsi_simple_mean_amended_witness :
    20 ≤ (analyzerInit dfAlt 400).rows.length
    ∧ ((((deltas (closes (analyzerInit dfAlt 400))).drop
          ((deltas (closes (analyzerInit dfAlt 400))).length - 14)).map negPart).sum / 14 : ℚ) ≠ 0
    ∧ get_rsi (analyzerInit dfAlt 400) = some (100 - 100 /
        (1 + ((((deltas (closes (analyzerInit dfAlt 400))).drop
            ((deltas (closes (analyzerInit dfAlt 400))).length - 14)).map posPart).sum / 14)
          / ((((deltas (closes (analyzerInit dfAlt 400))).drop
            ((deltas (closes (analyzerInit dfAlt 400))).length - 14)).map negPart).sum / 14))) := by
  have hclo : closes (analyzerInit dfAlt 400)
      = [10, 11, 10, 11, 10, 11, 10, 11, 10, 11, 10, 11, 10, 11, 10, 11, 10, 11, 10, 11, 10] := by
    rfl
  have hds : deltas (closes (analyzerInit dfAlt 400))
      = [1, -1, 1, -1, 1, -1, 1, -1, 1, -1, 1, -1, 1, -1, 1, -1, 1, -1, 1, -1] := by
    rw [deltas, hclo]
    norm_num
  have hloss : ((((deltas (closes (analyzerInit dfAlt 400))).drop
      ((deltas (closes (analyzerInit dfAlt 400))).length - 14)).map negPart).sum / 14 : ℚ) ≠ 0 := by
    rw [hds]
    norm_num [negPart]
  exact ⟨by decide, hloss,
    c5_rsi_simple_mean_amended (analyzerInit dfAlt 400) (by decide) (by decide) hloss⟩

/-- C5 as stated (Wilder RSI) is false: on the alternating frame `dfAlt` the
code's RSI (simple rolling means) is exactly 50, while the Wilder RSI of the
same closes is not 50; `get_rsi` does not compute the Wilder value. -/
theorem c5_rsi_not_wilder_counterexample :
    20 ≤ (analyzerInit dfAlt 400).rows.length
    ∧ get_rsi (analyzerInit dfAlt 400) = some 50
    ∧ specWilderRsiLast (closes (analyzerInit dfAlt 400)) ≠ some 50
    ∧ specWilderRsiLast (closes (analyzerInit dfAlt 400))
        ≠ get_rsi (analyzerInit dfAlt 400) := by
  have hclo : closes (analyzerInit dfAlt 400)
      = [10, 11, 10, 11, 10, 11, 10, 11, 10, 11, 10, 11, 10, 11, 10, 11, 10, 11, 10, 11, 10] := by
    rfl
  have hds : deltas (closes (analyzerInit dfAlt 400))
      = [1, -1, 1, -1, 1, -1, 1, -1, 1, -1, 1, -1, 1, -1, 1, -1, 1, -1, 1, -1] := by
    rw [deltas, hclo]
    norm_num
  have hloss : ((((deltas (closes (analyzerInit dfAlt 400))).drop
      ((deltas (closes (analyzerInit dfAlt 400))).length - 14)).map negPart).sum / 14 : ℚ) ≠ 0 := by
    rw [hds]
    norm_num [negPart]
  have hrsi : get_rsi (analyzerInit dfAlt 400) = some 50 := by
    rw [rsiLast_closed_form (analyzerInit dfAlt 400) (by decide) (by decide) hloss, hds]
    norm_num [posPart, negPart]
  have hwild : specWilderRsiLast (closes (analyzerInit dfAlt 400))
      ≠ some 50 := by
    rw [specWilderRsiLast, hds]
    norm_num [wilderSmooth, posPart, negPart]
  exact ⟨by decide, hrsi, hwild, fun h => hwild (h.trans hrsi)⟩

end TechnicalAnalysis

namespace TechnicalAnalysis

/-! ### C7: support and resistance -/

theorem listMax_eq_none_iff (l : List ℚ) : listMax l = none ↔ l = [] := by
  cases l with
  | nil => simp [listMax]
  | cons x xs =>
    rw [listMax]
    cases h : listMax xs <;> simp

theorem listMax_spec : ∀ (l : List ℚ) (m : ℚ), listMax l = some m →
    m ∈ l ∧ ∀ x ∈ l, x ≤ m := by
  intro l
  induction l with
  | nil =>
    intro m hm
    simp [listMax] at hm
  | cons x xs ih =>
    intro m hm
    rw [listMax] at hm
    cases h : listMax xs with
    | none =>
      rw [h] at hm
      injection hm with hm'
      subst hm'
      have hxs : xs = [] := (listMax_eq_none_iff xs).1 h
      subst hxs
      constructor
      · exact List.mem_cons_self _ _
      · intro y hy
        rcases List.mem_cons.1 hy with rfl | hy2
        · exact le_refl _
        · cases hy2
    | some m' =>
      rw [h] at hm
      injection hm with hm'
      subst hm'
      obtain ⟨hmem, hub⟩ := ih m' h
      constructor
      · rcases le_total x m' with hle | hle
        · rw [max_eq_right hle]
          exact List.mem_cons_of_mem _ hmem
        · rw [max_eq_left hle]
          exact List.mem_cons_self _ _
      · intro y hy
        rcases List.mem_cons.1 hy with rfl | hy2
        · exact le_max_left _ _
        · exact le_trans (hub y hy2) (le_max_right _ _)

theorem listMin_eq_none_iff (l : List ℚ) : listMin l = none ↔ l = [] := by
  cases l with
  | nil => simp [listMin]
  | cons x xs =>
    rw [listMin]
    cases h : listMin xs <;> simp

theorem listMin_spec : ∀ (l : List ℚ) (m : ℚ), listMin l = some m →
    m ∈ l ∧ ∀ x ∈ l, m ≤ x := by
  intro l
  induction l with
  | nil =>
    intro m hm
    simp [listMin] at hm
  | cons x xs ih =>
    intro m hm
    rw [listMin] at hm
    cases h : listMin xs with
    | none =>
      rw [h] at hm
      injection hm with hm'
      subst hm'
      have hxs : xs = [] := (listMin_eq_none_iff xs).1 h
      subst hxs
      constructor
      · exact List.mem_cons_self _ _
      · intro y hy
        rcases List.mem_cons.1 hy with rfl | hy2
        · exact le_refl _
        · cases hy2
    | some m' =>
      rw [h] at hm
      injection hm with hm'
      subst hm'
      obtain ⟨hmem, hlb⟩ := ih m' h
      constructor
      · rcases le_total x m' with hle | hle
        · rw [min_eq_left hle]
          exact List.mem_cons_self _ _
        · rw [min_eq_right hle]
          exact List.mem_cons_of_mem _ hmem
      · intro y hy
        rcases List.mem_cons.1 hy with rfl | hy2
        · exact min_le_left _ _
        · exact le_trans (min_le_right _ _) (hlb y hy2)

theorem map_proj_eq_map_some (f : RawRow → Option ℚ) :
    ∀ l : List RawRow, (∀ r ∈ l, (f r).isSome) →
      l.map f = (l.filterMap f).map some := by
  intro l
  induction l with
  | nil => simp
  | cons r rs ih =>
    intro h
    obtain ⟨v, hv⟩ := Option.isSome_iff_exists.1 (h r (List.mem_cons_self _ _))
    simp [List.filterMap_cons, hv, ih (fun s hs => h s (List.mem_cons_of_mem _ hs))]

theorem specIsExtreme_cons_succ (cmp : ℚ → ℚ → Bool) (a : ℚ) (tl : List ℚ)
    (j : Nat) (v : ℚ) (hj : 2 ≤ j) :
    specIsExtreme cmp (a :: tl) (j + 1) v ↔ specIsExtreme cmp tl j v := by
  obtain ⟨k, rfl⟩ : ∃ k, j = k + 2 := ⟨j - 2, by omega⟩
  show specIsExtreme cmp (a :: tl) (k + 3) v ↔ specIsExtreme cmp tl (k + 2) v
  unfold specIsExtreme
  have e1 : k + 3 - 2 = k + 1 := by omega
  have e2 : k + 3 - 1 = k + 2 := by omega
  have e3 : k + 2 - 2 = k := by omega
  have e4 : k + 2 - 1 = k + 1 := by omega
  rw [e1, e2, e3, e4]
  simp only [List.getD_cons_succ, List.length_cons]
  constructor
  · rintro ⟨h1, h2, h3, h4, h5, h6, h7⟩
    refine ⟨by omega, by omega, h3, h4, h5, ?_, ?_⟩
    · simpa using h6
    · simpa using h7
  · rintro ⟨h1, h2, h3, h4, h5, h6, h7⟩
    refine ⟨by omega, by omega, h3, h4, h5, ?_, ?_⟩
    · simpa using h6
    · simpa using h7

theorem specIsExtreme_cons_iff (cmp : ℚ → ℚ → Bool) (a : ℚ) (tl : List ℚ) (v : ℚ) :
    (∃ i, specIsExtreme cmp (a :: tl) i v) ↔
      specIsExtreme cmp (a :: tl) 2 v ∨ (∃ j, specIsExtreme cmp tl j v) := by
  constructor
  · rintro ⟨i, hi⟩
    match i with
    | 0 => exact absurd hi.1 (by omega)
    | 1 => exact absurd hi.1 (by omega)
    | 2 => exact Or.inl hi
    | (j + 3) =>
      right
      exact ⟨j + 2, (specIsExtreme_cons_succ cmp a tl (j + 2) v (by omega)).1 hi⟩
  · rintro (h | ⟨j, hj⟩)
    · exact ⟨2, h⟩
    · exact ⟨j + 1, (specIsExtreme_cons_succ cmp a tl j v hj.1).2 hj⟩

/-- The candidate-collection scan agrees with the claim's indexed notion of
a strict 5-bar local extremum (over a NaN-free column). -/
theorem window5Extrema_mem_iff (cmp : ℚ → ℚ → Bool) (price : ℚ) :
    ∀ (vals : List ℚ) (v : ℚ),
      v ∈ window5Extrema cmp price (vals.map some) ↔
        (∃ i, specIsExtreme cmp vals i v) ∧ cmp v price = true := by
  intro vals
  induction vals with
  | nil =>
    intro v
    simp [window5Extrema, specIsExtreme]
  | cons a tl ih =>
    intro v
    rw [specIsExtreme_cons_iff, or_and_right]
    rcases tl with _ | ⟨b, _ | ⟨c, _ | ⟨d, _ | ⟨e, rest⟩⟩⟩⟩
    · simp [window5Extrema, specIsExtreme]
    · simp only [List.map_cons, List.map_nil]
      simp only [window5Extrema, List.mem_append]
      simp [specIsExtreme]
      try omega
    · simp only [List.map_cons, List.map_nil]
      simp only [window5Extrema, List.mem_append]
      simp [specIsExtreme]
      try omega
    · simp only [List.map_cons, List.map_nil]
      simp only [window5Extrema, List.mem_append]
      simp [specIsExtreme]
      try omega
    · have ih2 := ih v
      simp only [List.map_cons] at ih2 ⊢
      rw [window5Extrema, List.mem_append, ih2]
      refine or_congr ?_ Iff.rfl
      constructor
      · intro hv
        simp only [optCmp] at hv
        by_cases hcond : (cmp c a && cmp c b && cmp c d && cmp c e && cmp c price) = true
        · rw [if_pos hcond] at hv
          simp only [List.mem_singleton] at hv
          subst hv
          simp only [Bool.and_eq_true] at hcond
          obtain ⟨⟨⟨⟨h1, h2⟩, h3⟩, h4⟩, h5⟩ := hcond
          refine ⟨⟨by omega, by simp [List.length_cons], rfl, ?_, ?_, ?_, ?_⟩, h5⟩
          · simpa using h1
          · simpa using h2
          · simpa using h3
          · simpa using h4
        · rw [if_neg hcond] at hv
          simp at hv
      · rintro ⟨⟨_, _, h3, h4, h5, h6, h7⟩, hp⟩
        simp only [show (2 : Nat) - 2 = 0 from rfl, show (2 : Nat) - 1 = 1 from rfl,
          show (2 : Nat) + 1 = 3 from rfl, show (2 : Nat) + 2 = 4 from rfl,
          List.getD_cons_succ, List.getD_cons_zero] at h3 h4 h5 h6 h7
        subst h3
        simp only [optCmp]
        rw [if_pos (by simp [h4, h5, h6, h7, hp])]
        simp

end TechnicalAnalysis

namespace TechnicalAnalysis

/-- C7 (amended): with fewer than 20 rows the result is `(support, resistance)
= (0, 0)`.  With at least 20 rows and NaN-free low/high columns: the support
candidates are exactly the strict 5-bar local minima of the last-60-row low
column strictly below the current price, the resistance candidates exactly
the strict 5-bar local maxima of the high column strictly above it (first
two conjuncts of the second part); the returned support is the rounded
greatest candidate — replaced by 95% of the price whenever the chosen value
(greatest candidate *or* the `get_ma(50)` fallback, which is used when there
are no candidates) equals 0; the returned resistance is the rounded least
candidate, falling back to the maximum high of the last 60 rows, either one
replaced by 110% of the price when it is not above the price.  `listMax` /
`listMin` return the greatest / least element (last two conjuncts). -/
theorem c7_support_resistance (a : TechnicalAnalyzer)
    (hval : ∀ r ∈ a.rows, (r.rlow).isSome ∧ (r.rhigh).isSome) :
    (a.rows.length < 20 → find_support_resistance a = (0, some 0))
    ∧ (20 ≤ a.rows.length →
        (∀ v, v ∈ window5Extrema (fun x y => decide (x < y)) (get_current_price a)
            ((a.rows.drop (a.rows.length - 60)).map (fun r => r.rlow)) ↔
          ((∃ i, specIsExtreme (fun x y => decide (x < y))
              ((a.rows.drop (a.rows.length - 60)).filterMap (fun r => r.rlow)) i v)
            ∧ v < get_current_price a))
        ∧ (∀ v, v ∈ window5Extrema (fun x y => decide (y < x)) (get_current_price a)
            ((a.rows.drop (a.rows.length - 60)).map (fun r => r.rhigh)) ↔
          ((∃ i, specIsExtreme (fun x y => decide (y < x))
              ((a.rows.drop (a.rows.length - 60)).filterMap (fun r => r.rhigh)) i v)
            ∧ get_current_price a < v))
        ∧ (∀ m, listMax (window5Extrema (fun x y => decide (x < y)) (get_current_price a)
              ((a.rows.drop (a.rows.length - 60)).map (fun r => r.rlow))) = some m →
            (find_support_resistance a).1
              = round1 (if m = 0 then get_current_price a * (95 / 100) else m))
        ∧ (listMax (window5Extrema (fun x y => decide (x < y)) (get_current_price a)
              ((a.rows.drop (a.rows.length - 60)).map (fun r => r.rlow))) = none →
            (find_support_resistance a).1
              = round1 (if get_ma a 50 = 0 then get_current_price a * (95 / 100)
                  else get_ma a 50))
        ∧ (∀ m, listMin (window5Extrema (fun x y => decide (y < x)) (get_current_price a)
              ((a.rows.drop (a.rows.length - 60)).map (fun r => r.rhigh))) = some m →
            (find_support_resistance a).2
              = some (round1 (if m ≤ get_current_price a
                  then get_current_price a * (11 / 10) else m)))
        ∧ (listMin (window5Extrema (fun x y => decide (y < x)) (get_current_price a)
              ((a.rows.drop (a.rows.length - 60)).map (fun r => r.rhigh))) = none →
            ∀ M, listMax ((a.rows.drop (a.rows.length - 60)).filterMap (fun r => r.rhigh))
                = some M →
            (find_support_resistance a).2
              = some (round1 (if M ≤ get_current_price a
                  then get_current_price a * (11 / 10) else M))))
    ∧ (∀ (l : List ℚ) (m : ℚ), listMax l = some m → m ∈ l ∧ ∀ x ∈ l, x ≤ m)
    ∧ (∀ (l : List ℚ) (m : ℚ), listMin l = some m → m ∈ l ∧ ∀ x ∈ l, m ≤ x) := by
  refine ⟨?_, ?_, listMax_spec, listMin_spec⟩
  · intro h
    rw [find_support_resistance, if_pos h]
  · intro h20
    have hlow : (a.rows.drop (a.rows.length - 60)).map (fun r => r.rlow)
        = ((a.rows.drop (a.rows.length - 60)).filterMap (fun r => r.rlow)).map some :=
      map_proj_eq_map_some _ _
        (fun r hr => (hval r ((List.drop_sublist _ _).subset hr)).1)
    have hhigh : (a.rows.drop (a.rows.length - 60)).map (fun r => r.rhigh)
        = ((a.rows.drop (a.rows.length - 60)).filterMap (fun r => r.rhigh)).map some :=
      map_proj_eq_map_some _ _
        (fun r hr => (hval r ((List.drop_sublist _ _).subset hr)).2)
    refine ⟨?_, ?_, ?_, ?_, ?_, ?_⟩
    · intro v
      rw [hlow, window5Extrema_mem_iff]
      simp
    · intro v
      rw [hhigh, window5Extrema_mem_iff]
      simp
    · intro m hm
      simp only [find_support_resistance]
      rw [if_neg (by omega)]
      simp only [hm]
    · intro hm
      simp only [find_support_resistance]
      rw [if_neg (by omega)]
      simp only [hm]
    · intro m hm
      simp only [find_support_resistance]
      rw [if_neg (by omega)]
      simp only [hm]
      simp [Option.map]
    · intro hm M hM
      simp only [find_support_resistance]
      rw [if_neg (by omega)]
      simp only [hm, hM]
      simp [Option.map]

/-- Witness for C7 on the one-row frame: fewer than 20 rows gives `(0, 0)`. -/
theorem c7_support_resistance_witness :
    (∀ r ∈ (analyzerInit dfSmall 400).rows, (r.rlow).isSome ∧ (r.rhigh).isSome)
    ∧ (analyzerInit dfSmall 400).rows.length < 20
    ∧ find_support_resistance (analyzerInit dfSmall 400) = (0, some 0) :=
  ⟨by decide, by decide,
    (c7_support_resistance (analyzerInit dfSmall 400) (by decide)).1 (by decide)⟩

/-- C7 as stated is false on the support side: on `dfSR` the (unique, hence
greatest) 5-bar local minimum below the price is 0, so the claim says the
support is `round(0, 1) = 0`; but the code's `if support == 0` check also
fires when the chosen *candidate* is 0 (not only when the MA50 fallback is),
so it returns `0.95 * price = 9.5` instead. -/
theorem c7_zero_support_counterexample :
    (∀ r ∈ (analyzerInit dfSR 400).rows, (r.rlow).isSome ∧ (r.rhigh).isSome)
    ∧ 20 ≤ (analyzerInit dfSR 400).rows.length
    ∧ window5Extrema (fun x y => decide (x < y)) (get_current_price (analyzerInit dfSR 400))
        (((analyzerInit dfSR 400).rows.drop
          ((analyzerInit dfSR 400).rows.length - 60)).map (fun r => r.rlow)) = [0]
    ∧ (find_support_resistance (analyzerInit dfSR 400)).1 = 19 / 2
    ∧ round1 0 ≠ (19 / 2 : ℚ) := by
  have hA : (analyzerInit dfSR 400).rows = dfSR := by rfl
  have hp : get_current_price (analyzerInit dfSR 400) = 10 := by rfl
  have hlows : ((analyzerInit dfSR 400).rows.drop
      ((analyzerInit dfSR 400).rows.length - 60)).map (fun r => r.rlow)
      = dfSR.map (fun r => r.rlow) := by
    rw [hA, show dfSR.length - 60 = 0 from rfl, List.drop_zero]
  have hsup : window5Extrema (fun x y => decide (x < y))
      (get_current_price (analyzerInit dfSR 400))
      (((analyzerInit dfSR 400).rows.drop
        ((analyzerInit dfSR 400).rows.length - 60)).map (fun r => r.rlow)) = [0] := by
    rw [hp, hlows]
    norm_num [dfSR, mkSR, window5Extrema, optCmp]
  have hfind : find_support_resistance (analyzerInit dfSR 400) = (19 / 2, some 20) := by
    rw [find_support_resistance, if_neg (by rw [hA]; norm_num [dfSR])]
    rw [hA]
    norm_num [dfSR, mkSR, window5Extrema, optCmp, listMax, listMin,
      get_current_price, closes, analyzerInit, round1, roundHalfEven, get_ma]
  refine ⟨by decide, by decide, hsup, by rw [hfind], by norm_num [round1, roundHalfEven]⟩

end TechnicalAnalysis
